import Mathlib

/-!
Verification of the probe/acknowledgment measurement system
(UDP server `A3.py`, UDP client `A3_Client.py`, TCP server `A3_TCP.py`,
TCP client `A3_TCP_Client.py`) against its natural-language specification.

The Python sources are shallowly embedded: times are rationals (`ℚ`),
the Python dictionaries `send_perf`, `send_wall`, `ack_perf`, `ack_wall`
become association lists keyed by sequence number, the CSV rows written by
the client become a list of `Row` values, and the network is an explicit
parameter giving, for each iteration, the send-time readings and the list
of datagrams observed during that iteration's wait window.  Wire sequence
numbers are modelled as naturals; an acknowledgment whose seq was never
sent (including the out-of-range values Python's `int` would admit) is
represented by any value outside `1..n`, which the client code treats
uniformly.  String formatting of timestamps (`%.6f`, `%.3f`) is elided:
fields hold the exact rational values the code formats.
-/

namespace A3

/-- Association-list lookup, mirroring Python dict membership/indexing
(`seq in d`, `d[seq]`).  Entries are only ever appended at fresh keys or
left untouched, so first-match lookup agrees with the dict. -/
def lookupT {α β : Type} [DecidableEq α] : List (α × β) → α → Option β
  | [], _ => none
  | (k, v) :: t, s => if k = s then some v else lookupT t s

/-- Outcome of a probe, `"ACKED"` or `"TIMEOUT"` in the CSV. -/
inductive Outcome
  | acked
  | timeout
deriving DecidableEq, Repr

/-- One CSV row of `udp_client_log.csv` as written by `finalize` in
`A3_Client.py`: `none` models the empty string field. -/
structure Row where
  seq : ℕ
  send_ts : Option ℚ
  ack_ts : Option ℚ
  rtt_ms : Option ℚ
  outcome : Outcome
deriving DecidableEq, Repr

/-- Mutable state of the UDP client's main loop in `A3_Client.py`:
counters, the four timestamp dicts, the `finalized` set (kept as a list in
insertion order) and the rows written so far. -/
structure CState where
  sentCount : ℕ
  ackCount : ℕ
  sendPerf : List (ℕ × ℚ)
  sendWall : List (ℕ × ℚ)
  ackPerf : List (ℕ × ℚ)
  ackWall : List (ℕ × ℚ)
  finalized : List ℕ
  rows : List Row
deriving DecidableEq, Repr

def initCState : CState := ⟨0, 0, [], [], [], [], [], []⟩

/-- The row dict built inside `finalize` (`A3_Client.py` lines 41-49):
`send_ts` if recorded, `ack_ts` only when ACKED and observed, `rtt_ms`
only when ACKED and both perf readings exist. -/
def mkRow (st : CState) (seq : ℕ) (oc : Outcome) : Row :=
  { seq := seq
    send_ts := lookupT st.sendWall seq
    ack_ts := if oc = Outcome.acked then lookupT st.ackWall seq else none
    rtt_ms :=
      if oc = Outcome.acked then
        match lookupT st.ackPerf seq, lookupT st.sendPerf seq with
        | some a, some s => some ((a - s) * 1000)
        | _, _ => none
      else none
    outcome := oc }

/-- `finalize(seq, outcome)` from `A3_Client.py`: a no-op when `seq` is
already finalized; otherwise writes one CSV row and marks `seq`. -/
def finalize (st : CState) (seq : ℕ) (oc : Outcome) : CState :=
  if seq ∈ st.finalized then st
  else { st with rows := st.rows ++ [mkRow st seq oc],
                 finalized := st.finalized ++ [seq] }

/-- One datagram observed inside a wait window: either an acknowledgment
that parsed, carrying its seq and the client's receive-time readings
(`now_perf()`, `time.time()`), or data whose decode/parse raised
(caught by the generic `except` branch, lines 86-87). -/
inductive Event
  | ack (s : ℕ) (tPerf tWall : ℚ)
  | malformed
deriving DecidableEq, Repr

/-- First-observation store (`A3_Client.py` lines 75-78): the receive
times for `s` are recorded only if `s` is not yet in `ack_perf`. -/
def storeAck (st : CState) (s : ℕ) (tPerf tWall : ℚ) : CState :=
  if lookupT st.ackPerf s = none then
    { st with ackPerf := st.ackPerf ++ [(s, tPerf)],
              ackWall := st.ackWall ++ [(s, tWall)] }
  else st

/-- Body of the receive loop for one datagram while waiting on `seq`
(`A3_Client.py` lines 69-89).  Returns the new state and the
`got_current` flag; `true` means the loop breaks on the success path. -/
def procEvent (seq : ℕ) (st : CState) : Event → CState × Bool
  | Event.ack s tPerf tWall =>
    let st1 := storeAck st s tPerf tWall
    if s = seq ∧ seq ∉ st1.finalized then
      (finalize { st1 with ackCount := st1.ackCount + 1 } seq Outcome.acked, true)
    else (st1, false)
  | Event.malformed => (st, false)

/-- The bounded wait loop for `seq`: datagrams are consumed in order
until the current seq is acknowledged (`got_current`) or the deadline
passes (end of the list, covering both `socket.timeout` and an exhausted
remaining budget). -/
def procWindow (seq : ℕ) (st : CState) : List Event → CState × Bool
  | [] => (st, false)
  | e :: rest =>
    let p := procEvent seq st e
    if p.2 then (p.1, true) else procWindow seq p.1 rest

/-- Post-wait finalization (`A3_Client.py` lines 91-97): if the current
seq was not acknowledged during its window, finalize it as ACKED from the
earlier observation when one exists, otherwise as TIMEOUT. -/
def afterWindow (seq : ℕ) (p : CState × Bool) : CState :=
  if p.2 = false ∧ seq ∉ p.1.finalized then
    if lookupT p.1.ackPerf seq ≠ none then
      finalize { p.1 with ackCount := p.1.ackCount + 1 } seq Outcome.acked
    else finalize p.1 seq Outcome.timeout
  else p.1

/-- The network-dependent inputs of one iteration: the two send-time
readings (`now_perf()`, `time.time()`) and the datagrams observed during
the wait window. -/
structure IterInput where
  sPerf : ℚ
  sWall : ℚ
  events : List Event
deriving DecidableEq, Repr

/-- One iteration of the send loop for `seq` (`A3_Client.py` lines
57-99): record send times, count the send, run the wait window and the
post-wait finalization.  The jittered sleep does not touch this state. -/
def clientStep (seq : ℕ) (inp : IterInput) (st : CState) : CState :=
  let st1 := { st with sendPerf := st.sendPerf ++ [(seq, inp.sPerf)],
                       sendWall := st.sendWall ++ [(seq, inp.sWall)],
                       sentCount := st.sentCount + 1 }
  afterWindow seq (procWindow seq st1 inp.events)

/-- The full client session: iterations for seq = 1..n in order. -/
def clientRun (net : ℕ → IterInput) : ℕ → CState
  | 0 => initCState
  | n + 1 => clientStep (n + 1) (net (n + 1)) (clientRun net n)

/-- The sequence numbers 1..n in order. -/
def seqList (n : ℕ) : List ℕ := (List.range n).map (· + 1)

/-- The (first) row recorded for a given seq. -/
def rowFor : List Row → ℕ → Option Row
  | [], _ => none
  | r :: t, s => if r.seq = s then some r else rowFor t s

/-- Number of rows finalized as ACKED. -/
def countAcked (rows : List Row) : ℕ :=
  (rows.filter (fun r => decide (r.outcome = Outcome.acked))).length

/-! ### Summary computation (`A3_Client.py` lines 101-121) -/

/-- Round-half-to-even to an integer, as Python's `round` behaves on the
exact value. -/
def rhe (x : ℚ) : ℤ :=
  if x - ⌊x⌋ < 1 / 2 then ⌊x⌋
  else if x - ⌊x⌋ > 1 / 2 then ⌊x⌋ + 1
  else if ⌊x⌋ % 2 = 0 then ⌊x⌋ else ⌊x⌋ + 1

/-- `round(q, p)`: round half-to-even at `p` decimal places. -/
def rndTo (p : ℕ) (q : ℚ) : ℚ := (rhe (q * 10 ^ p) : ℚ) / 10 ^ p

/-- `statistics.mean` on exact rationals. -/
def meanQ (l : List ℚ) : ℚ := l.sum / l.length

/-- Python `min` over a nonempty list. -/
def listMin : List ℚ → Option ℚ
  | [] => none
  | x :: xs => some (xs.foldl min x)

/-- Python `max` over a nonempty list. -/
def listMax : List ℚ → Option ℚ
  | [] => none
  | x :: xs => some (xs.foldl max x)

def insertSorted (x : ℚ) : List ℚ → List ℚ
  | [] => [x]
  | y :: ys => if x ≤ y then x :: y :: ys else y :: insertSorted x ys

def sortQ (l : List ℚ) : List ℚ := l.foldr insertSorted []

/-- `statistics.median`: middle element of the sorted list, or the mean
of the two middle elements when the length is even. -/
def medianQ (l : List ℚ) : ℚ :=
  if l.length % 2 = 1 then (sortQ l).getD (l.length / 2) 0
  else ((sortQ l).getD (l.length / 2 - 1) 0 + (sortQ l).getD (l.length / 2) 0) / 2

/-- A JSON value as it appears in the printed summary objects. -/
inductive JVal
  | num (q : ℚ)
  | nullv
  | obj (fields : List (String × JVal))
deriving Repr

/-- The RTT values the client's summary is computed over: re-read from
the CSV, keeping rows whose outcome is ACKED and whose `rtt_ms` field is
nonempty (`A3_Client.py` lines 103-107). -/
def ackedRtts (rows : List Row) : List ℚ :=
  rows.filterMap (fun r => if r.outcome = Outcome.acked then r.rtt_ms else none)

/-- The summary dict printed by the UDP client (`A3_Client.py` lines
109-118), in field order. -/
def udpSummary (seed : ℕ) (st : CState) : List (String × JVal) :=
  let rtts := ackedRtts st.rows
  let loss : ℚ :=
    if st.sentCount ≠ 0 then ((st.sentCount : ℚ) - st.ackCount) / st.sentCount else 0
  [("sent", JVal.num st.sentCount),
   ("acked", JVal.num st.ackCount),
   ("loss_ratio", JVal.num (rndTo 2 loss)),
   ("seed", JVal.num seed),
   ("rtt_ms", JVal.obj
     [("avg", if rtts ≠ [] then JVal.num (rndTo 3 (meanQ rtts)) else JVal.nullv),
      ("min", if rtts ≠ [] then JVal.num (rndTo 3 ((listMin rtts).getD 0)) else JVal.nullv),
      ("max", if rtts ≠ [] then JVal.num (rndTo 3 ((listMax rtts).getD 0)) else JVal.nullv)])]

/-! ### UDP server (`A3.py`) -/

/-- Startup-phase effects of `A3.py`'s `main`, in program order. -/
inductive SAction
  | errMsg (s : String)
  | exitA (code : ℕ)
  | seedRng (seed : ℕ)
  | bindSock (host : String) (port : ℕ)
  | serveLoop
deriving DecidableEq, Repr

/-- Straight-line startup of `A3.py` (lines 21-29): the mutual-exclusion
check on the loss models runs before `random.seed` and before the socket
is created and bound. -/
def serverStartup (lossProb : ℚ) (dropK : ℕ) (seed : ℕ) (host : String) (port : ℕ) :
    List SAction :=
  if 0 < lossProb ∧ 0 < dropK then
    [SAction.errMsg "Use only one loss model at a time (--loss-prob OR --drop-k).",
     SAction.exitA 1]
  else
    [SAction.seedRng seed, SAction.bindSock host port, SAction.serveLoop]

/-- The deterministic drop test of `A3.py` line 60:
`args.drop_k > 0 and seq % args.drop_k == 0`. -/
def dropDecisionK (k seq : ℕ) : Bool := decide (0 < k) && decide (seq % k = 0)

/-- One received datagram as the server sees it: the result of decoding
and parsing it (`none` when `json.loads`/`int` raised), the wall-clock
receive time, and the sender address. -/
structure Packet where
  parsed : Option ℕ
  recvTs : ℚ
  addr : ℕ
deriving DecidableEq, Repr

/-- Server loop state: the receive counter, the index of the next draw
from the seeded RNG stream, the seqs dropped so far (in order), and the
acknowledgments sent (seq with the echoed receive timestamp). -/
structure SState where
  recvCount : ℕ
  rngIdx : ℕ
  dropped : List ℕ
  acks : List (ℕ × ℚ)
deriving DecidableEq, Repr

def initSState : SState := ⟨0, 0, [], []⟩

/-- One pass of the server's receive loop (`A3.py` lines 48-72) on one
datagram.  `stream i` is the i-th value of `random.random()` after
`random.seed(seed)`; the draw is consumed exactly when `loss_prob > 0`
and the packet parsed and survived the drop-k test, matching Python's
short-circuit `and`. -/
def serverStep (stream : ℕ → ℚ) (p : ℚ) (k : ℕ) (st : SState) (pk : Packet) : SState :=
  let st0 := { st with recvCount := st.recvCount + 1 }
  match pk.parsed with
  | none => st0
  | some seq =>
    if dropDecisionK k seq then { st0 with dropped := st0.dropped ++ [seq] }
    else if 0 < p then
      if stream st0.rngIdx < p then
        { st0 with rngIdx := st0.rngIdx + 1, dropped := st0.dropped ++ [seq] }
      else
        { st0 with rngIdx := st0.rngIdx + 1, acks := st0.acks ++ [(seq, pk.recvTs)] }
    else { st0 with acks := st0.acks ++ [(seq, pk.recvTs)] }

/-- The server's receive loop over a finite arrival trace. -/
def serverLoop (stream : ℕ → ℚ) (p : ℚ) (k : ℕ) : SState → List Packet → SState
  | st, [] => st
  | st, pk :: rest => serverLoop stream p k (serverStep stream p k st pk) rest

/-- The arrival order of sequence numbers: the seqs of the packets that
parsed, in order. -/
def parsedSeqs (ps : List Packet) : List ℕ := ps.filterMap Packet.parsed

/-! ### TCP client (`A3_TCP_Client.py`) -/

/-- What one iteration of the TCP client's try-block yields: an
acknowledgment line that parsed as JSON (with or without the
`server_recv_ts` field, observed at client wall time `recvWall`), a
`socket.timeout`, or any other raised exception — a transport error or a
line whose decode/JSON parse failed (both reach the generic `except`
branch, lines 70-72). -/
inductive TcpEvent
  | ack (serverTs : Option ℚ) (recvWall : ℚ)
  | timeout
  | err
deriving DecidableEq, Repr

/-- Network-dependent inputs of one TCP iteration: the wall-clock send
time (`time.time()`) and what the receive produced. -/
structure TcpIterIn where
  sendTs : ℚ
  ev : TcpEvent
deriving DecidableEq, Repr

/-- One tuple appended to `results` (`seq, send_ts, ack_ts, rtt_ms`). -/
structure TcpRow where
  seq : ℕ
  sendTs : ℚ
  ackTs : Option ℚ
  rttMs : Option ℚ
deriving DecidableEq, Repr

/-- TCP client loop state: the `results` rows and the `rtts` list. -/
structure TcpSt where
  results : List TcpRow
  rtts : List ℚ
deriving DecidableEq, Repr

/-- The TCP client's send loop (`A3_TCP_Client.py` lines 44-69),
structurally recursing on the number of remaining iterations.  On an ack
the missing `server_recv_ts` defaults to the client's own current wall
clock (`ack.get("server_recv_ts", time.time())`) and
`rtt_ms = (ack_ts - send_ts) * 1000` — both wall-clock values.  On
`socket.timeout` a row without ack is appended and the loop continues;
on any other exception the loop breaks. -/
def tcpLoop (net : ℕ → TcpIterIn) : ℕ → ℕ → TcpSt → TcpSt
  | 0, _, st => st
  | m + 1, seq, st =>
    match (net seq).ev with
    | TcpEvent.ack sTs now =>
      let ackTs := sTs.getD now
      let rtt := (ackTs - (net seq).sendTs) * 1000
      tcpLoop net m (seq + 1)
        { results := st.results ++ [⟨seq, (net seq).sendTs, some ackTs, some rtt⟩],
          rtts := st.rtts ++ [rtt] }
    | TcpEvent.timeout =>
      tcpLoop net m (seq + 1)
        { st with results := st.results ++ [⟨seq, (net seq).sendTs, none, none⟩] }
    | TcpEvent.err => st

/-- A full TCP client session of `n` configured messages. -/
def tcpRun (net : ℕ → TcpIterIn) (n : ℕ) : TcpSt := tcpLoop net n 1 ⟨[], []⟩

/-- The summary dict printed by the TCP client (`A3_TCP_Client.py` lines
84-103): note the `sent` field is the configured `args.n` in both
branches, and there is no `loss_ratio` field. -/
def tcpSummary (n : ℕ) (st : TcpSt) (handshakeMs sessionMs : ℚ) :
    List (String × JVal) :=
  if st.rtts ≠ [] then
    [("sent", JVal.num n),
     ("acked", JVal.num st.rtts.length),
     ("rtt_ms", JVal.obj
       [("avg", JVal.num (rndTo 3 (meanQ st.rtts))),
        ("min", JVal.num (rndTo 3 ((listMin st.rtts).getD 0))),
        ("max", JVal.num (rndTo 3 ((listMax st.rtts).getD 0))),
        ("median", JVal.num (rndTo 3 (medianQ st.rtts)))]),
     ("handshake_ms", JVal.num (rndTo 3 handshakeMs)),
     ("session_duration_ms", JVal.num (rndTo 3 sessionMs))]
  else
    [("sent", JVal.num n),
     ("acked", JVal.num 0),
     ("rtt_ms", JVal.nullv),
     ("handshake_ms", JVal.num (rndTo 3 handshakeMs)),
     ("session_duration_ms", JVal.num (rndTo 3 sessionMs))]

/-! ### TCP server (`A3_TCP.py`) -/

/-- One line read by the TCP server's connection handler
(`A3_TCP.py` lines 24-35): blank after stripping (skipped before any
timestamp is taken), data whose decode/`json.loads`/`int` raised —
including a JSON object with no `seq` field, where `int(None)` raises —
or a parsed probe with the wall-clock receive time taken on arrival. -/
inductive TcpLine
  | blank
  | malformed (recvTs : ℚ)
  | msg (seq : ℕ) (recvTs : ℚ)
deriving DecidableEq, Repr

/-- Handling of a single line by `handle_connection`: blank and
malformed lines are skipped (`continue`), a parsed probe is answered by
exactly one acknowledgment `{seq, server_recv_ts}` carrying the receive
timestamp taken before the artificial delay.  The state is the list of
acknowledgments written to the connection, in order. -/
def tcpServeLine (acks : List (ℕ × ℚ)) : TcpLine → List (ℕ × ℚ)
  | TcpLine.blank => acks
  | TcpLine.malformed _ => acks
  | TcpLine.msg seq recvTs => acks ++ [(seq, recvTs)]

/-- The TCP server's per-connection read loop over a finite stream of
lines. -/
def tcpServeConn (acks : List (ℕ × ℚ)) : List TcpLine → List (ℕ × ℚ)
  | [] => acks
  | l :: rest => tcpServeConn (tcpServeLine acks l) rest

/-! ### Scenario networks used in concrete runs -/

/-- The network seen by the UDP client when the server runs in
deterministic mode with `k = 3` and nothing else is lost: the window for
`seq` holds exactly the echo of `seq`, unless the server's drop test
fires, in which case it is empty and the window times out.  Send and
receive clock readings advance with `seq`. -/
def scenarioANet (w : ℕ) : IterInput :=
  { sPerf := w
    sWall := w + 1000
    events := if dropDecisionK 3 w then [] else [Event.ack w ((w : ℚ) + 1 / 2) ((w : ℚ) + 1000 + 1 / 2)] }

/-! ### Invariants and auxiliary definitions used by the proofs -/

/-- The list `a, a+1, ..., a+j-1`. -/
def seqFrom (a : ℕ) : ℕ → List ℕ
  | 0 => []
  | j + 1 => a :: seqFrom (a + 1) j

/-- Every recorded send-perf reading is the one the network model
assigned to that iteration. -/
def sendInv (net : ℕ → IterInput) (st : CState) : Prop :=
  ∀ p ∈ st.sendPerf, p.2 = (net p.1).sPerf

/-- Every recorded ack-perf reading is at least the monotonic send
reading of the acknowledged seq (honest, monotone network). -/
def ackInv (net : ℕ → IterInput) (st : CState) : Prop :=
  ∀ p ∈ st.ackPerf, (net p.1).sPerf ≤ p.2

/-- Every ACKED row carries an RTT equal to the stored ack-perf reading
minus the monotonic send reading, and that difference is non-negative. -/
def rowsInv (net : ℕ → IterInput) (st : CState) : Prop :=
  ∀ r ∈ st.rows, r.outcome = Outcome.acked →
    ∃ a : ℚ, lookupT st.ackPerf r.seq = some a ∧
      r.rtt_ms = some ((a - (net r.seq).sPerf) * 1000) ∧ (net r.seq).sPerf ≤ a

/-- The dropped seqs of the server loop as a function of the RNG stream,
the parameters, the next stream index and the arrival order of parsed
sequence numbers only (derived characterization, proved equal to the
loop). -/
def dropsFrom (stream : ℕ → ℚ) (p : ℚ) (k : ℕ) : ℕ → List ℕ → List ℕ
  | _, [] => []
  | i, s :: rest =>
    if dropDecisionK k s then s :: dropsFrom stream p k i rest
    else if 0 < p then
      if stream i < p then s :: dropsFrom stream p k (i + 1) rest
      else dropsFrom stream p k (i + 1) rest
    else dropsFrom stream p k i rest

/-! ### Concrete inputs used by witnesses and counterexamples -/

/-- A client state whose seq 1 is already finalized ACKED. -/
def wSt1 : CState :=
  ⟨1, 1, [(1, 0)], [(1, 5)], [(1, 2)], [(1, 7)], [1],
   [⟨1, some 5, some 7, some 2000, Outcome.acked⟩]⟩

/-- A client state where an ack for seq 2 was observed out of order
(perf 5, wall 6) before seq 2's own wait turn. -/
def wSt2 : CState := ⟨1, 0, [(2, 1)], [(2, 2)], [(2, 5)], [(2, 6)], [], []⟩

/-- A network sending every probe at monotonic time 0 and observing its
echo at monotonic time 7 (wall 8). -/
def c3WNet : ℕ → IterInput :=
  fun w => ⟨0, 0, [Event.ack w 7 8]⟩

/-- The row the client writes for seq 1 under `c3WNet`. -/
def c3Row : Row := ⟨1, some 0, some 8, some (((7 : ℚ) - 0) * 1000), Outcome.acked⟩

/-- A TCP network whose acknowledgment carries a server wall clock that
lags the client wall clock: `server_recv_ts = 50` against
`send_ts = 100`. -/
def c3CexNet : ℕ → TcpIterIn := fun _ => ⟨100, TcpEvent.ack (some 50) 100⟩

/-- A TCP session whose first receive yields unparsable data (the
generic exception branch). -/
def c7CexNet : ℕ → TcpIterIn :=
  fun w => ⟨w, if w = 1 then TcpEvent.err else TcpEvent.ack (some w) w⟩

/-- The same session with the unparsable datagram replaced by a plain
timeout. -/
def c7ContrastNet : ℕ → TcpIterIn :=
  fun w => ⟨w, if w = 1 then TcpEvent.timeout else TcpEvent.ack (some w) w⟩

/-- A fully acknowledged TCP session. -/
def c8CexNet : ℕ → TcpIterIn :=
  fun w => ⟨w, TcpEvent.ack (some ((w : ℚ) + 1)) ((w : ℚ) + 2)⟩

/-- An empty TCP loop state (no acknowledgment received). -/
def c8WTcp : TcpSt := ⟨[], []⟩

/-- A TCP session hitting a non-timeout exception at seq 2. -/
def c9WNet : ℕ → TcpIterIn :=
  fun w => ⟨w, if w = 2 then TcpEvent.err else TcpEvent.ack (some w) w⟩

/-- A TCP session whose acknowledgments parse as JSON but lack the
`server_recv_ts` field, observed at client wall time 5. -/
def c10WNet : ℕ → TcpIterIn := fun w => ⟨w, TcpEvent.ack none 5⟩

/-- Two server arrival traces with the same parsed seq order but
different receive times, addresses and malformed interleaving. -/
def c6Ps1 : List Packet := [⟨some 1, 5, 0⟩, ⟨none, 9, 3⟩, ⟨some 2, 7, 1⟩]

def c6Ps2 : List Packet := [⟨some 1, 100, 7⟩, ⟨some 2, 3, 9⟩]

def c6Stream : ℕ → ℚ := fun i => if i = 0 then 0 else 1

def zeroStream : ℕ → ℚ := fun _ => 0

/-- Arrival trace of seqs 1..10 at the server. -/
def c4Ps : List Packet := (seqList 10).map (fun s => ⟨some s, (s : ℚ), 0⟩)

/-! ## Basic lemmas about the embedding's data structures -/

theorem lookupT_append_left {α β : Type} [DecidableEq α] {l : List (α × β)} {s : α} {v : β}
    (h : lookupT l s = some v) (l2 : List (α × β)) : lookupT (l ++ l2) s = some v := by
  induction l with
  | nil => simp [lookupT] at h
  | cons a t ih =>
    obtain ⟨k, w⟩ := a
    by_cases hk : k = s
    · simp [lookupT, hk] at h ⊢
      exact h
    · simp [lookupT, hk] at h ⊢
      exact ih h

theorem lookupT_append_isSome {α β : Type} [DecidableEq α] (l : List (α × β)) (s : α) (v : β) :
    lookupT (l ++ [(s, v)]) s ≠ none := by
  induction l with
  | nil => simp [lookupT]
  | cons a t ih =>
    obtain ⟨k, w⟩ := a
    by_cases hk : k = s
    · simp [lookupT, hk]
    · simp [lookupT, hk]
      exact ih

theorem lookupT_mem {α β : Type} [DecidableEq α] {l : List (α × β)} {s : α} {v : β}
    (h : lookupT l s = some v) : (s, v) ∈ l := by
  induction l with
  | nil => simp [lookupT] at h
  | cons a t ih =>
    obtain ⟨k, w⟩ := a
    by_cases hk : k = s
    · subst hk
      simp [lookupT] at h
      simp [h]
    · simp [lookupT, hk] at h
      exact List.mem_cons_of_mem _ (ih h)

theorem rowFor_append_ne {rows : List Row} {r : Row} {s : ℕ} (h : r.seq ≠ s) :
    rowFor (rows ++ [r]) s = rowFor rows s := by
  induction rows with
  | nil => simp [rowFor, h]
  | cons a t ih =>
    by_cases ha : a.seq = s
    · simp [rowFor, ha]
    · simp [rowFor, ha, ih]

theorem seqList_succ (n : ℕ) : seqList (n + 1) = seqList n ++ [n + 1] := by
  simp [seqList, List.range_succ]

theorem mem_seqList {x n : ℕ} : x ∈ seqList n ↔ 1 ≤ x ∧ x ≤ n := by
  simp only [seqList, List.mem_map, List.mem_range]
  constructor
  · rintro ⟨a, ha, rfl⟩
    omega
  · intro h
    exact ⟨x - 1, by omega, by omega⟩

theorem countAcked_append (rows : List Row) (r : Row) :
    countAcked (rows ++ [r]) =
      countAcked rows + (if r.outcome = Outcome.acked then 1 else 0) := by
  by_cases h : r.outcome = Outcome.acked <;>
    simp [countAcked, List.filter_append, h, List.filter]

theorem ackedRtts_append (rows : List Row) (r : Row) :
    ackedRtts (rows ++ [r]) =
      ackedRtts rows ++ (if r.outcome = Outcome.acked then r.rtt_ms.toList else []) := by
  by_cases h : r.outcome = Outcome.acked <;>
    cases hr : r.rtt_ms <;>
      simp [ackedRtts, List.filterMap_append, h, hr]

theorem ackedRtts_length (rows : List Row)
    (h : ∀ r ∈ rows, r.outcome = Outcome.acked → r.rtt_ms ≠ none) :
    (ackedRtts rows).length = countAcked rows := by
  induction rows with
  | nil => simp [ackedRtts, countAcked]
  | cons a t ih =>
    have ht : ∀ r ∈ t, r.outcome = Outcome.acked → r.rtt_ms ≠ none :=
      fun r hr => h r (List.mem_cons_of_mem _ hr)
    by_cases ha : a.outcome = Outcome.acked
    · have hrtt : a.rtt_ms ≠ none := h a (List.mem_cons_self _ _) ha
      obtain ⟨q, hq⟩ := Option.ne_none_iff_exists.mp hrtt
      simp [ackedRtts, countAcked, ha, ← hq, List.filter] at ih ⊢
      exact ih ht
    · simp [ackedRtts, countAcked, ha, List.filter] at ih ⊢
      exact ih ht

/-! ## Lemmas about `storeAck` and `finalize` -/

theorem storeAck_fields (st : CState) (s : ℕ) (tP tW : ℚ) :
    (storeAck st s tP tW).rows = st.rows ∧
    (storeAck st s tP tW).finalized = st.finalized ∧
    (storeAck st s tP tW).ackCount = st.ackCount ∧
    (storeAck st s tP tW).sentCount = st.sentCount ∧
    (storeAck st s tP tW).sendPerf = st.sendPerf ∧
    (storeAck st s tP tW).sendWall = st.sendWall := by
  by_cases h : lookupT st.ackPerf s = none <;> simp [storeAck, h]

theorem storeAck_of_some {st : CState} {s : ℕ} (tP tW : ℚ)
    (h : lookupT st.ackPerf s ≠ none) : storeAck st s tP tW = st := by
  simp [storeAck, h]

theorem storeAck_self_isSome (st : CState) (s : ℕ) (tP tW : ℚ) :
    lookupT (storeAck st s tP tW).ackPerf s ≠ none := by
  by_cases h : lookupT st.ackPerf s = none
  · simp only [storeAck, h, if_pos]
    exact lookupT_append_isSome _ _ _
  · simp [storeAck, h]

theorem storeAck_preserve_perf {st : CState} {x : ℕ} {v : ℚ} (s : ℕ) (tP tW : ℚ)
    (h : lookupT st.ackPerf x = some v) :
    lookupT (storeAck st s tP tW).ackPerf x = some v := by
  by_cases hs : lookupT st.ackPerf s = none
  · simp only [storeAck, hs, if_pos]
    exact lookupT_append_left h _
  · simp [storeAck, hs, h]

theorem storeAck_preserve_wall {st : CState} {x : ℕ} {v : ℚ} (s : ℕ) (tP tW : ℚ)
    (h : lookupT st.ackWall x = some v) :
    lookupT (storeAck st s tP tW).ackWall x = some v := by
  by_cases hs : lookupT st.ackPerf s = none
  · simp only [storeAck, hs, if_pos]
    exact lookupT_append_left h _
  · simp [storeAck, hs, h]

theorem storeAck_ackPerf_sub {st : CState} {s : ℕ} {tP tW : ℚ} {p : ℕ × ℚ}
    (h : p ∈ (storeAck st s tP tW).ackPerf) : p ∈ st.ackPerf ∨ p = (s, tP) := by
  by_cases hs : lookupT st.ackPerf s = none
  · simp only [storeAck, hs, if_pos] at h
    rcases List.mem_append.mp h with h1 | h1
    · exact Or.inl h1
    · exact Or.inr (List.mem_singleton.mp h1)
  · simp [storeAck, hs] at h
    exact Or.inl h

theorem finalize_mem {st : CState} {seq : ℕ} (oc : Outcome) (h : seq ∈ st.finalized) :
    finalize st seq oc = st := by
  simp [finalize, h]

theorem finalize_not_mem {st : CState} {seq : ℕ} (oc : Outcome) (h : seq ∉ st.finalized) :
    finalize st seq oc =
      { st with rows := st.rows ++ [mkRow st seq oc], finalized := st.finalized ++ [seq] } := by
  simp [finalize, h]

theorem finalize_fields (st : CState) (seq : ℕ) (oc : Outcome) :
    (finalize st seq oc).ackPerf = st.ackPerf ∧
    (finalize st seq oc).ackWall = st.ackWall ∧
    (finalize st seq oc).sendPerf = st.sendPerf ∧
    (finalize st seq oc).sendWall = st.sendWall ∧
    (finalize st seq oc).ackCount = st.ackCount ∧
    (finalize st seq oc).sentCount = st.sentCount := by
  by_cases h : seq ∈ st.finalized <;> simp [finalize, h]

/-! ## The wait-window specification -/

/-- Running the wait loop for a not-yet-finalized `seq` either ends
without `got_current`, leaving rows, the finalized set, both counters
and the send maps untouched, or ends with `got_current`, appending
exactly one ACKED row for `seq`, marking `seq` finalized and bumping
`ack_count` once. -/
theorem procWindow_spec (seq : ℕ) :
    ∀ (evs : List Event) (st : CState), seq ∉ st.finalized →
    ((procWindow seq st evs).2 = false ∧
     (procWindow seq st evs).1.rows = st.rows ∧
     (procWindow seq st evs).1.finalized = st.finalized ∧
     (procWindow seq st evs).1.ackCount = st.ackCount ∧
     (procWindow seq st evs).1.sentCount = st.sentCount ∧
     (procWindow seq st evs).1.sendPerf = st.sendPerf ∧
     (procWindow seq st evs).1.sendWall = st.sendWall) ∨
    ((procWindow seq st evs).2 = true ∧ ∃ r : Row,
     r.seq = seq ∧ r.outcome = Outcome.acked ∧
     (lookupT st.sendPerf seq ≠ none → r.rtt_ms ≠ none) ∧
     (procWindow seq st evs).1.rows = st.rows ++ [r] ∧
     (procWindow seq st evs).1.finalized = st.finalized ++ [seq] ∧
     (procWindow seq st evs).1.ackCount = st.ackCount + 1 ∧
     (procWindow seq st evs).1.sentCount = st.sentCount ∧
     (procWindow seq st evs).1.sendPerf = st.sendPerf ∧
     (procWindow seq st evs).1.sendWall = st.sendWall) := by
  intro evs
  induction evs with
  | nil =>
    intro st h
    left
    simp [procWindow]
  | cons e rest ih =>
    intro st h
    cases e with
    | malformed =>
      have hred : procWindow seq st (Event.malformed :: rest) = procWindow seq st rest := by
        simp [procWindow, procEvent]
      rw [hred]
      exact ih st h
    | ack s tP tW =>
      obtain ⟨hr1, hf1, hc1, hn1, hp1, hw1⟩ := storeAck_fields st s tP tW
      by_cases hg : s = seq ∧ seq ∉ (storeAck st s tP tW).finalized
      · have hred : procWindow seq st (Event.ack s tP tW :: rest) =
            (finalize { storeAck st s tP tW with
                        ackCount := (storeAck st s tP tW).ackCount + 1 } seq Outcome.acked,
             true) := by
          simp only [procWindow, procEvent]
          rw [if_pos hg]
          simp
        obtain ⟨hs_eq, hnf⟩ := hg
        subst hs_eq
        have hnf2 : s ∉ ({ storeAck st s tP tW with
            ackCount := (storeAck st s tP tW).ackCount + 1 } : CState).finalized := hnf
        rw [hred]
        right
        refine ⟨rfl, mkRow { storeAck st s tP tW with
            ackCount := (storeAck st s tP tW).ackCount + 1 } s Outcome.acked, rfl, rfl, ?_, ?_, ?_, ?_, ?_, ?_, ?_⟩
        · intro hsp
          obtain ⟨a, ha⟩ := Option.ne_none_iff_exists.mp (storeAck_self_isSome st s tP tW)
          obtain ⟨b, hb⟩ := Option.ne_none_iff_exists.mp (hp1 ▸ hsp)
          simp [mkRow, ← ha, ← hb]
        · rw [finalize_not_mem _ hnf2]
          simp [hr1]
        · rw [finalize_not_mem _ hnf2]
          simp [hf1]
        · rw [finalize_not_mem _ hnf2]
          simp [hc1]
        · rw [finalize_not_mem _ hnf2]
          simp [hn1]
        · rw [finalize_not_mem _ hnf2]
          simp [hp1]
        · rw [finalize_not_mem _ hnf2]
          simp [hw1]
      · have hred : procWindow seq st (Event.ack s tP tW :: rest) =
            procWindow seq (storeAck st s tP tW) rest := by
          simp only [procWindow, procEvent]
          rw [if_neg hg]
          simp
        rw [hred]
        rcases ih (storeAck st s tP tW) (hf1 ▸ h) with
          ⟨hb, h2, h3, h4, h5, h6, h7⟩ | ⟨hb, r, hrs, hro, hrt, h2, h3, h4, h5, h6, h7⟩
        · left
          exact ⟨hb, hr1 ▸ h2, hf1 ▸ h3, hc1 ▸ h4, hn1 ▸ h5, hp1 ▸ h6, hw1 ▸ h7⟩
        · right
          exact ⟨hb, r, hrs, hro, fun hsp => hrt (hp1 ▸ hsp), hr1 ▸ h2, hf1 ▸ h3,
                 hc1 ▸ h4, hn1 ▸ h5, hp1 ▸ h6, hw1 ▸ h7⟩

/-- One full send-loop iteration for a fresh `seq` appends exactly one
row for `seq`, marks `seq` finalized, counts the send, and bumps
`ack_count` exactly when the row is ACKED; an ACKED row always carries
an RTT, a TIMEOUT row carries neither RTT nor ack timestamp. -/
theorem clientStep_spec (seq : ℕ) (inp : IterInput) (st : CState) (h : seq ∉ st.finalized) :
    ∃ r : Row, r.seq = seq ∧
      (clientStep seq inp st).rows = st.rows ++ [r] ∧
      (clientStep seq inp st).finalized = st.finalized ++ [seq] ∧
      (clientStep seq inp st).sentCount = st.sentCount + 1 ∧
      ((r.outcome = Outcome.acked ∧ (clientStep seq inp st).ackCount = st.ackCount + 1 ∧
        r.rtt_ms ≠ none) ∨
       (r.outcome = Outcome.timeout ∧ (clientStep seq inp st).ackCount = st.ackCount ∧
        r.rtt_ms = none ∧ r.ack_ts = none)) := by
  have hstep : clientStep seq inp st =
      afterWindow seq (procWindow seq
        { st with sendPerf := st.sendPerf ++ [(seq, inp.sPerf)],
                  sendWall := st.sendWall ++ [(seq, inp.sWall)],
                  sentCount := st.sentCount + 1 } inp.events) := rfl
  set st1 : CState :=
    { st with sendPerf := st.sendPerf ++ [(seq, inp.sPerf)],
              sendWall := st.sendWall ++ [(seq, inp.sWall)],
              sentCount := st.sentCount + 1 } with hst1
  have h1 : seq ∉ st1.finalized := h
  have hsp : lookupT st1.sendPerf seq ≠ none := by
    have : st1.sendPerf = st.sendPerf ++ [(seq, inp.sPerf)] := rfl
    rw [this]
    exact lookupT_append_isSome _ _ _
  rw [hstep]
  rcases procWindow_spec seq inp.events st1 h1 with
    ⟨hb, h2, h3, h4, h5, h6, h7⟩ | ⟨hb, r, hrs, hro, hrt, h2, h3, h4, h5, h6, h7⟩
  · -- no `got_current`: post-wait finalization runs
    have hcond : (procWindow seq st1 inp.events).2 = false ∧
        seq ∉ (procWindow seq st1 inp.events).1.finalized := ⟨hb, h3 ▸ h1⟩
    by_cases hap : lookupT (procWindow seq st1 inp.events).1.ackPerf seq = none
    · -- never acknowledged: TIMEOUT
      have hred : afterWindow seq (procWindow seq st1 inp.events) =
          finalize (procWindow seq st1 inp.events).1 seq Outcome.timeout := by
        simp [afterWindow, hcond.1, hcond.2, hap]
      obtain ⟨ga, gb, gc, gd, ge, gf⟩ :=
        finalize_fields (procWindow seq st1 inp.events).1 seq Outcome.timeout
      refine ⟨mkRow (procWindow seq st1 inp.events).1 seq Outcome.timeout, rfl, ?_, ?_, ?_, ?_⟩
      · rw [hred, finalize_not_mem _ hcond.2]
        simp [h2]
      · rw [hred, finalize_not_mem _ hcond.2]
        simp [h3]
      · rw [hred, finalize_not_mem _ hcond.2]
        simp [h5]
      · right
        refine ⟨rfl, ?_, by simp [mkRow], by simp [mkRow]⟩
        rw [hred, finalize_not_mem _ hcond.2]
        simp [h4]
    · -- acknowledged earlier (out-of-order): ACKED from the stored observation
      have hred : afterWindow seq (procWindow seq st1 inp.events) =
          finalize { (procWindow seq st1 inp.events).1 with
                     ackCount := (procWindow seq st1 inp.events).1.ackCount + 1 }
            seq Outcome.acked := by
        simp [afterWindow, hcond.1, hcond.2, hap]
      have hnf2 : seq ∉ ({ (procWindow seq st1 inp.events).1 with
          ackCount := (procWindow seq st1 inp.events).1.ackCount + 1 } : CState).finalized :=
        hcond.2
      refine ⟨mkRow { (procWindow seq st1 inp.events).1 with
          ackCount := (procWindow seq st1 inp.events).1.ackCount + 1 } seq Outcome.acked,
        rfl, ?_, ?_, ?_, ?_⟩
      · rw [hred, finalize_not_mem _ hnf2]
        simp [h2]
      · rw [hred, finalize_not_mem _ hnf2]
        simp [h3]
      · rw [hred, finalize_not_mem _ hnf2]
        simp [h5]
      · left
        refine ⟨rfl, ?_, ?_⟩
        · rw [hred, finalize_not_mem _ hnf2]
          simp [h4]
        · obtain ⟨a, ha⟩ := Option.ne_none_iff_exists.mp hap
          obtain ⟨b, hb2⟩ := Option.ne_none_iff_exists.mp (h6 ▸ hsp)
          simp [mkRow, ← ha, ← hb2]
  · -- `got_current`: the window already finalized seq as ACKED
    have hred : afterWindow seq (procWindow seq st1 inp.events) =
        (procWindow seq st1 inp.events).1 := by
      simp [afterWindow, hb]
    refine ⟨r, hrs, ?_, ?_, ?_, Or.inl ⟨hro, ?_, hrt hsp⟩⟩
    · rw [hred, h2]
    · rw [hred, h3]
    · rw [hred, h5]
    · rw [hred, h4]

/-- Session-level invariant of the UDP client run: the finalized set and
the row seqs are exactly 1..n in order, `sent_count = n`, `ack_count`
counts the ACKED rows, and every ACKED row carries an RTT. -/
theorem clientRun_inv (net : ℕ → IterInput) : ∀ n : ℕ,
    (clientRun net n).finalized = seqList n ∧
    (clientRun net n).rows.map Row.seq = seqList n ∧
    (clientRun net n).sentCount = n ∧
    (clientRun net n).ackCount = countAcked (clientRun net n).rows ∧
    (∀ r ∈ (clientRun net n).rows, r.outcome = Outcome.acked → r.rtt_ms ≠ none) := by
  intro n
  induction n with
  | zero => simp [clientRun, initCState, seqList, countAcked]
  | succ n ih =>
    obtain ⟨ihf, ihm, ihs, iha, ihr⟩ := ih
    have hfresh : (n + 1) ∉ (clientRun net n).finalized := by
      rw [ihf]
      intro hmem
      have := mem_seqList.mp hmem
      omega
    obtain ⟨r, hrs, h2, h3, h4, h5⟩ := clientStep_spec (n + 1) (net (n + 1)) (clientRun net n) hfresh
    have hrun : clientRun net (n + 1) = clientStep (n + 1) (net (n + 1)) (clientRun net n) := rfl
    rw [hrun]
    refine ⟨?_, ?_, ?_, ?_, ?_⟩
    · rw [h3, ihf, seqList_succ]
    · rw [h2, List.map_append, ihm, seqList_succ]
      simp [hrs]
    · rw [h4, ihs]
    · rw [h2, countAcked_append]
      rcases h5 with ⟨hoc, hac, _⟩ | ⟨hoc, hac, _, _⟩
      · rw [hac, iha, hoc]
        simp
      · rw [hac, iha, hoc]
        simp
    · intro x hx hoc
      rw [h2] at hx
      rcases List.mem_append.mp hx with hx1 | hx1
      · exact ihr x hx1 hoc
      · rcases List.mem_singleton.mp hx1 with rfl
        rcases h5 with ⟨_, _, hrtt⟩ | ⟨hto, _, _, _⟩
        · exact hrtt
        · rw [hoc] at hto
          cases hto

/-- Observing any datagram (duplicate or late ack included) while `seq`
is already finalized leaves the row recorded for `seq` unchanged. -/
theorem procEvent_preserves_row (w : ℕ) (st : CState) (e : Event) (seq : ℕ)
    (h : seq ∈ st.finalized) :
    rowFor ((procEvent w st e).1).rows seq = rowFor st.rows seq := by
  cases e with
  | malformed => rfl
  | ack s tP tW =>
    obtain ⟨hr1, hf1, hc1, hn1, hp1, hw1⟩ := storeAck_fields st s tP tW
    by_cases hg : s = w ∧ w ∉ (storeAck st s tP tW).finalized
    · have hred : (procEvent w st (Event.ack s tP tW)).1 =
          finalize { storeAck st s tP tW with
                     ackCount := (storeAck st s tP tW).ackCount + 1 } w Outcome.acked := by
        simp only [procEvent]
        rw [if_pos hg]
      have hw_ne : w ≠ seq := by
        intro hws
        exact hg.2 (hf1 ▸ hws ▸ h)
      have hnf2 : w ∉ ({ storeAck st s tP tW with
          ackCount := (storeAck st s tP tW).ackCount + 1 } : CState).finalized := hg.2
      rw [hred, finalize_not_mem _ hnf2]
      have hrows : ({ storeAck st s tP tW with
          ackCount := (storeAck st s tP tW).ackCount + 1 } : CState).rows = st.rows := hr1
      have hseq : (mkRow { storeAck st s tP tW with
          ackCount := (storeAck st s tP tW).ackCount + 1 } w Outcome.acked).seq = w := rfl
      calc rowFor (({ storeAck st s tP tW with
              ackCount := (storeAck st s tP tW).ackCount + 1 } : CState).rows ++
            [mkRow { storeAck st s tP tW with
              ackCount := (storeAck st s tP tW).ackCount + 1 } w Outcome.acked]) seq
          = rowFor ({ storeAck st s tP tW with
              ackCount := (storeAck st s tP tW).ackCount + 1 } : CState).rows seq :=
            rowFor_append_ne (hseq ▸ hw_ne)
        _ = rowFor st.rows seq := by rw [hrows]
    · have hred : (procEvent w st (Event.ack s tP tW)).1 = storeAck st s tP tW := by
        simp only [procEvent]
        rw [if_neg hg]
      rw [hred, hr1]

/-! ## Claim theorems -/

/-- C1: in every session each seq in 1..N is finalized with exactly one
Outcome exactly once — the run's rows carry each seq exactly once, in
order; a later `finalize` call for an already-finalized seq is a no-op on
the whole state; and a later acknowledgment observed for an
already-finalized seq leaves that seq's recorded row (outcome, RTT,
timestamps) unchanged. -/
theorem c1_finalize_exactly_once (net : ℕ → IterInput) (n : ℕ) :
    (clientRun net n).rows.map Row.seq = seqList n ∧
    (∀ (st : CState) (seq : ℕ) (oc : Outcome), seq ∈ st.finalized → finalize st seq oc = st) ∧
    (∀ (st : CState) (w seq : ℕ) (e : Event), seq ∈ st.finalized →
      rowFor ((procEvent w st e).1).rows seq = rowFor st.rows seq) :=
  ⟨(clientRun_inv net n).2.1,
   fun _ _ oc h => finalize_mem oc h,
   fun st w seq e h => procEvent_preserves_row w st e seq h⟩

/-- Witness for C1 at a concrete session and a concrete
already-finalized state. -/
theorem c1_finalize_exactly_once_witness :
    (clientRun scenarioANet 2).rows.map Row.seq = seqList 2 ∧
    finalize wSt1 1 Outcome.timeout = wSt1 ∧
    rowFor ((procEvent 1 wSt1 (Event.ack 1 9 9)).1).rows 1 = rowFor wSt1.rows 1 :=
  ⟨(c1_finalize_exactly_once scenarioANet 2).1,
   (c1_finalize_exactly_once scenarioANet 2).2.1 wSt1 1 Outcome.timeout (by decide),
   (c1_finalize_exactly_once scenarioANet 2).2.2 wSt1 1 1 (Event.ack 1 9 9) (by decide)⟩

/-- If an ack for `seq` was observed earlier (perf `tP`, wall `tW`) and
`seq` is not yet finalized, then whatever datagrams arrive during
`seq`'s own wait window, its iteration finalizes it as ACKED using the
stored first-observation times. -/
theorem window_firstObs (seq : ℕ) (tP tW : ℚ) :
    ∀ (evs : List Event) (st : CState),
      lookupT st.ackPerf seq = some tP →
      lookupT st.ackWall seq = some tW →
      seq ∉ st.finalized →
      (afterWindow seq (procWindow seq st evs)).rows =
        st.rows ++ [{ seq := seq, send_ts := lookupT st.sendWall seq, ack_ts := some tW,
                      rtt_ms := (lookupT st.sendPerf seq).map (fun sp => (tP - sp) * 1000),
                      outcome := Outcome.acked }] := by
  intro evs
  induction evs with
  | nil =>
    intro st hP hW hF
    have hnn : ¬ lookupT st.ackPerf seq = none := by
      rw [hP]
      exact Option.some_ne_none tP
    have hred : afterWindow seq (procWindow seq st []) =
        finalize { st with ackCount := st.ackCount + 1 } seq Outcome.acked := by
      simp [procWindow, afterWindow, hF, hnn]
    have hnf2 : seq ∉ ({ st with ackCount := st.ackCount + 1 } : CState).finalized := hF
    rw [hred, finalize_not_mem _ hnf2]
    cases hsp : lookupT st.sendPerf seq <;> simp [mkRow, hP, hW, hsp]
  | cons e rest ih =>
    intro st hP hW hF
    cases e with
    | malformed =>
      have hred : procWindow seq st (Event.malformed :: rest) = procWindow seq st rest := by
        simp [procWindow, procEvent]
      rw [hred]
      exact ih st hP hW hF
    | ack s tP2 tW2 =>
      obtain ⟨hr1, hf1, hc1, hn1, hp1, hw1⟩ := storeAck_fields st s tP2 tW2
      by_cases hg : s = seq ∧ seq ∉ (storeAck st s tP2 tW2).finalized
      · obtain ⟨hs_eq, hnf⟩ := hg
        subst hs_eq
        have hsa : storeAck st s tP2 tW2 = st := storeAck_of_some tP2 tW2 (by
          rw [hP]
          exact Option.some_ne_none tP)
        have hcond : True ∧ s ∉ (storeAck st s tP2 tW2).finalized := ⟨trivial, hnf⟩
        have hred : procWindow s st (Event.ack s tP2 tW2 :: rest) =
            (finalize { storeAck st s tP2 tW2 with
                        ackCount := (storeAck st s tP2 tW2).ackCount + 1 } s Outcome.acked,
             true) := by
          simp only [procWindow, procEvent]
          rw [if_pos hcond]
          simp
        rw [hred] at *
        have hgot : afterWindow s (finalize { storeAck st s tP2 tW2 with
            ackCount := (storeAck st s tP2 tW2).ackCount + 1 } s Outcome.acked, true) =
            finalize { storeAck st s tP2 tW2 with
              ackCount := (storeAck st s tP2 tW2).ackCount + 1 } s Outcome.acked := by
          simp [afterWindow]
        rw [hgot, hsa, finalize_not_mem _ (show s ∉
            ({ st with ackCount := st.ackCount + 1 } : CState).finalized from hF)]
        cases hsp : lookupT st.sendPerf s <;> simp [mkRow, hP, hW, hsp]
      · have hred : procWindow seq st (Event.ack s tP2 tW2 :: rest) =
            procWindow seq (storeAck st s tP2 tW2) rest := by
          simp only [procWindow, procEvent]
          rw [if_neg hg]
          simp
        rw [hred]
        have := ih (storeAck st s tP2 tW2)
          (storeAck_preserve_perf s tP2 tW2 hP)
          (storeAck_preserve_wall s tP2 tW2 hW)
          (hf1 ▸ hF)
        rw [this, hr1, hp1, hw1]

/-- C2: a seq whose acknowledgment was first observed while waiting on
an earlier seq is finalized ACKED when its own turn ends, using the
first-observation timestamps — not fresher ones — and an acknowledgment
for a seq already present in `ack_perf` never overwrites the stored
observation times. -/
theorem c2_first_observation_used (st : CState) (seq : ℕ) (tP tW : ℚ) (evs : List Event)
    (hP : lookupT st.ackPerf seq = some tP)
    (hW : lookupT st.ackWall seq = some tW)
    (hF : seq ∉ st.finalized) :
    ((afterWindow seq (procWindow seq st evs)).rows =
      st.rows ++ [{ seq := seq, send_ts := lookupT st.sendWall seq, ack_ts := some tW,
                    rtt_ms := (lookupT st.sendPerf seq).map (fun sp => (tP - sp) * 1000),
                    outcome := Outcome.acked }]) ∧
    (∀ (st2 : CState) (w s : ℕ) (tP2 tW2 : ℚ), lookupT st2.ackPerf s ≠ none →
      (procEvent w st2 (Event.ack s tP2 tW2)).1.ackPerf = st2.ackPerf ∧
      (procEvent w st2 (Event.ack s tP2 tW2)).1.ackWall = st2.ackWall) := by
  refine ⟨window_firstObs seq tP tW evs st hP hW hF, ?_⟩
  intro st2 w s tP2 tW2 hsome
  have hsa : storeAck st2 s tP2 tW2 = st2 := storeAck_of_some tP2 tW2 hsome
  by_cases hg : s = w ∧ w ∉ (storeAck st2 s tP2 tW2).finalized
  · have hred : (procEvent w st2 (Event.ack s tP2 tW2)).1 =
        finalize { storeAck st2 s tP2 tW2 with
                   ackCount := (storeAck st2 s tP2 tW2).ackCount + 1 } w Outcome.acked := by
      simp only [procEvent]
      rw [if_pos hg]
    obtain ⟨ga, gb, _⟩ := finalize_fields { storeAck st2 s tP2 tW2 with
        ackCount := (storeAck st2 s tP2 tW2).ackCount + 1 } w Outcome.acked
    rw [hred, ga, gb]
    rw [hsa]
    exact ⟨rfl, rfl⟩
  · have hred : (procEvent w st2 (Event.ack s tP2 tW2)).1 = storeAck st2 s tP2 tW2 := by
      simp only [procEvent]
      rw [if_neg hg]
    rw [hred, hsa]
    exact ⟨rfl, rfl⟩

/-- Witness for C2: an ack for seq 2 stored at perf 5 / wall 6 while an
earlier seq was awaited; during seq 2's own window a duplicate ack with
fresher times (50, 60) arrives, yet the finalized row uses the stored
times (RTT 4000 ms from perf reading 5, ack wall 6). -/
theorem c2_first_observation_used_witness :
    ((afterWindow 2 (procWindow 2 wSt2 [Event.malformed, Event.ack 2 50 60])).rows =
      [{ seq := 2, send_ts := some 2, ack_ts := some 6,
         rtt_ms := some 4000, outcome := Outcome.acked }]) ∧
    (procEvent 1 wSt2 (Event.ack 2 50 60)).1.ackPerf = wSt2.ackPerf := by
  have h := c2_first_observation_used wSt2 2 5 6 [Event.malformed, Event.ack 2 50 60]
    (by decide) (by decide) (by decide)
  constructor
  · rw [h.1]
    have hrow : ((5 : ℚ) - 1) * 1000 = 4000 := by norm_num
    simp [wSt2, lookupT, hrow]
  · exact (h.2 wSt2 1 2 50 60 (by decide)).1

/-! ## RTT invariants for C3 -/

/-- `storeAck` preserves the timing invariants provided the stored ack
reading is at least the acknowledged seq's monotonic send reading. -/
theorem storeAck_invs (net : ℕ → IterInput) (st : CState) (s : ℕ) (tP tW : ℚ)
    (hb : (net s).sPerf ≤ tP)
    (h1 : sendInv net st) (h2 : ackInv net st) (h3 : rowsInv net st) :
    sendInv net (storeAck st s tP tW) ∧ ackInv net (storeAck st s tP tW) ∧
    rowsInv net (storeAck st s tP tW) := by
  obtain ⟨hr1, hf1, hc1, hn1, hp1, hw1⟩ := storeAck_fields st s tP tW
  refine ⟨?_, ?_, ?_⟩
  · intro p hp
    exact h1 p (hp1 ▸ hp)
  · intro p hp
    rcases storeAck_ackPerf_sub hp with hold | hnew
    · exact h2 p hold
    · rw [hnew]
      exact hb
  · intro r hr hoc
    obtain ⟨a, ha, hrtt, hle⟩ := h3 r (hr1 ▸ hr) hoc
    exact ⟨a, storeAck_preserve_perf s tP tW ha, hrtt, hle⟩

/-- Finalizing a seq as ACKED preserves the timing invariants when both
its perf readings are recorded. -/
theorem finalize_acked_invs (net : ℕ → IterInput) (st : CState) (seq : ℕ)
    (h1 : sendInv net st) (h2 : ackInv net st) (h3 : rowsInv net st)
    (hap : lookupT st.ackPerf seq ≠ none) (hsp : lookupT st.sendPerf seq ≠ none) :
    sendInv net (finalize st seq Outcome.acked) ∧
    ackInv net (finalize st seq Outcome.acked) ∧
    rowsInv net (finalize st seq Outcome.acked) := by
  by_cases hm : seq ∈ st.finalized
  · rw [finalize_mem _ hm]
    exact ⟨h1, h2, h3⟩
  · rw [finalize_not_mem _ hm]
    refine ⟨h1, h2, ?_⟩
    intro r hr hoc
    rcases List.mem_append.mp hr with hr1 | hr1
    · exact h3 r hr1 hoc
    · rcases List.mem_singleton.mp hr1 with rfl
      obtain ⟨a, ha⟩ := Option.ne_none_iff_exists.mp hap
      obtain ⟨b, hbb⟩ := Option.ne_none_iff_exists.mp hsp
      have hbv : b = (net seq).sPerf := h1 (seq, b) (lookupT_mem hbb.symm)
      have hav : (net seq).sPerf ≤ a := h2 (seq, a) (lookupT_mem ha.symm)
      refine ⟨a, ha.symm, ?_, hav⟩
      simp only [mkRow]
      rw [← ha, ← hbb]
      simp [hbv]

/-- Finalizing a seq as TIMEOUT preserves the timing invariants. -/
theorem finalize_timeout_invs (net : ℕ → IterInput) (st : CState) (seq : ℕ)
    (h1 : sendInv net st) (h2 : ackInv net st) (h3 : rowsInv net st) :
    sendInv net (finalize st seq Outcome.timeout) ∧
    ackInv net (finalize st seq Outcome.timeout) ∧
    rowsInv net (finalize st seq Outcome.timeout) := by
  by_cases hm : seq ∈ st.finalized
  · rw [finalize_mem _ hm]
    exact ⟨h1, h2, h3⟩
  · rw [finalize_not_mem _ hm]
    refine ⟨h1, h2, ?_⟩
    intro r hr hoc
    rcases List.mem_append.mp hr with hr1 | hr1
    · exact h3 r hr1 hoc
    · rcases List.mem_singleton.mp hr1 with rfl
      cases hoc

/-- The post-wait step preserves the timing invariants. -/
theorem afterWindow_invs (net : ℕ → IterInput) (seq : ℕ) (p : CState × Bool)
    (h1 : sendInv net p.1) (h2 : ackInv net p.1) (h3 : rowsInv net p.1)
    (hsp : lookupT p.1.sendPerf seq ≠ none) :
    sendInv net (afterWindow seq p) ∧ ackInv net (afterWindow seq p) ∧
    rowsInv net (afterWindow seq p) := by
  by_cases hc : p.2 = false ∧ seq ∉ p.1.finalized
  · by_cases hap : lookupT p.1.ackPerf seq = none
    · have hred : afterWindow seq p = finalize p.1 seq Outcome.timeout := by
        simp [afterWindow, hc.1, hc.2, hap]
      rw [hred]
      exact finalize_timeout_invs net p.1 seq h1 h2 h3
    · have hred : afterWindow seq p =
          finalize { p.1 with ackCount := p.1.ackCount + 1 } seq Outcome.acked := by
        simp [afterWindow, hc.1, hc.2, hap]
      rw [hred]
      exact finalize_acked_invs net { p.1 with ackCount := p.1.ackCount + 1 } seq h1 h2 h3 hap hsp
  · have hred : afterWindow seq p = p.1 := by
      simp only [afterWindow]
      rw [if_neg hc]
    rw [hred]
    exact ⟨h1, h2, h3⟩

/-- Running a whole wait window plus the post-wait step preserves the
timing invariants when every ack observed in the window respects the
monotone-network bound. -/
theorem window_rtt (net : ℕ → IterInput) (seq : ℕ) :
    ∀ (evs : List Event) (st : CState),
      (∀ e ∈ evs, ∀ (s : ℕ) (tP tW : ℚ), e = Event.ack s tP tW → (net s).sPerf ≤ tP) →
      sendInv net st → ackInv net st → rowsInv net st →
      lookupT st.sendPerf seq ≠ none →
      sendInv net (afterWindow seq (procWindow seq st evs)) ∧
      ackInv net (afterWindow seq (procWindow seq st evs)) ∧
      rowsInv net (afterWindow seq (procWindow seq st evs)) := by
  intro evs
  induction evs with
  | nil =>
    intro st hev h1 h2 h3 hsp
    exact afterWindow_invs net seq (procWindow seq st []) h1 h2 h3 hsp
  | cons e rest ih =>
    intro st hev h1 h2 h3 hsp
    cases e with
    | malformed =>
      have hred : procWindow seq st (Event.malformed :: rest) = procWindow seq st rest := by
        simp [procWindow, procEvent]
      rw [hred]
      exact ih st (fun e he => hev e (List.mem_cons_of_mem _ he)) h1 h2 h3 hsp
    | ack s tP tW =>
      have hb : (net s).sPerf ≤ tP :=
        hev (Event.ack s tP tW) (List.mem_cons_self _ _) s tP tW rfl
      obtain ⟨g1, g2, g3⟩ := storeAck_invs net st s tP tW hb h1 h2 h3
      obtain ⟨hr1, hf1, hc1, hn1, hp1, hw1⟩ := storeAck_fields st s tP tW
      by_cases hg : s = seq ∧ seq ∉ (storeAck st s tP tW).finalized
      · have hred : procWindow seq st (Event.ack s tP tW :: rest) =
            (finalize { storeAck st s tP tW with
                        ackCount := (storeAck st s tP tW).ackCount + 1 } seq Outcome.acked,
             true) := by
          simp only [procWindow, procEvent]
          rw [if_pos hg]
          simp
        rw [hred]
        have hgot : afterWindow seq (finalize { storeAck st s tP tW with
            ackCount := (storeAck st s tP tW).ackCount + 1 } seq Outcome.acked, true) =
            finalize { storeAck st s tP tW with
              ackCount := (storeAck st s tP tW).ackCount + 1 } seq Outcome.acked := by
          simp [afterWindow]
        rw [hgot]
        have hap2 : lookupT ({ storeAck st s tP tW with
            ackCount := (storeAck st s tP tW).ackCount + 1 } : CState).ackPerf seq ≠ none := by
          rw [← hg.1]
          exact storeAck_self_isSome st s tP tW
        have hsp2 : lookupT ({ storeAck st s tP tW with
            ackCount := (storeAck st s tP tW).ackCount + 1 } : CState).sendPerf seq ≠ none := by
          rw [show ({ storeAck st s tP tW with
            ackCount := (storeAck st s tP tW).ackCount + 1 } : CState).sendPerf =
            st.sendPerf from hp1]
          exact hsp
        exact finalize_acked_invs net _ seq g1 g2 g3 hap2 hsp2
      · have hred : procWindow seq st (Event.ack s tP tW :: rest) =
            procWindow seq (storeAck st s tP tW) rest := by
          simp only [procWindow, procEvent]
          rw [if_neg hg]
          simp
        rw [hred]
        exact ih (storeAck st s tP tW) (fun e he => hev e (List.mem_cons_of_mem _ he))
          g1 g2 g3 (hp1 ▸ hsp)

/-- Session-level timing invariants of the UDP client under a monotone,
honest network. -/
theorem clientRun_rtt (net : ℕ → IterInput)
    (H : ∀ w : ℕ, ∀ e ∈ (net w).events, ∀ (s : ℕ) (tP tW : ℚ),
      e = Event.ack s tP tW → (net s).sPerf ≤ tP) :
    ∀ n : ℕ, sendInv net (clientRun net n) ∧ ackInv net (clientRun net n) ∧
      rowsInv net (clientRun net n) := by
  intro n
  induction n with
  | zero =>
    refine ⟨?_, ?_, ?_⟩ <;> intro x hx <;> simp [clientRun, initCState] at hx
  | succ n ih =>
    obtain ⟨ih1, ih2, ih3⟩ := ih
    have hstep : clientRun net (n + 1) =
        afterWindow (n + 1) (procWindow (n + 1)
          { clientRun net n with
            sendPerf := (clientRun net n).sendPerf ++ [(n + 1, (net (n + 1)).sPerf)],
            sendWall := (clientRun net n).sendWall ++ [(n + 1, (net (n + 1)).sWall)],
            sentCount := (clientRun net n).sentCount + 1 } (net (n + 1)).events) := rfl
    set st1 : CState :=
      { clientRun net n with
        sendPerf := (clientRun net n).sendPerf ++ [(n + 1, (net (n + 1)).sPerf)],
        sendWall := (clientRun net n).sendWall ++ [(n + 1, (net (n + 1)).sWall)],
        sentCount := (clientRun net n).sentCount + 1 } with hst1
    have g1 : sendInv net st1 := by
      intro p hp
      have hp2 : p ∈ (clientRun net n).sendPerf ++ [(n + 1, (net (n + 1)).sPerf)] := hp
      rcases List.mem_append.mp hp2 with hold | hnew
      · exact ih1 p hold
      · rw [List.mem_singleton.mp hnew]
    have g2 : ackInv net st1 := ih2
    have g3 : rowsInv net st1 := ih3
    have hsp : lookupT st1.sendPerf (n + 1) ≠ none := by
      have : st1.sendPerf = (clientRun net n).sendPerf ++ [(n + 1, (net (n + 1)).sPerf)] := rfl
      rw [this]
      exact lookupT_append_isSome _ _ _
    rw [hstep]
    exact window_rtt net (n + 1) (net (n + 1)).events st1 (H (n + 1)) g1 g2 g3 hsp

/-- C3 (amended): in the UDP client, every ACKED row's `rtt_ms` is the
difference of two monotonic-clock readings taken on the client — the
stored first-observed ack perf reading minus the probe's send perf
reading — times 1000, and it is non-negative whenever the network is
honest and the monotonic clock consistent (every observed ack's perf
reading is at least the acknowledged seq's send perf reading).  The TCP
client does not satisfy the original claim; see the counterexample. -/
theorem c3_udp_rtt_monotonic (net : ℕ → IterInput) (n : ℕ)
    (H : ∀ w : ℕ, ∀ e ∈ (net w).events, ∀ (s : ℕ) (tP tW : ℚ),
      e = Event.ack s tP tW → (net s).sPerf ≤ tP) :
    ∀ r ∈ (clientRun net n).rows, r.outcome = Outcome.acked →
      ∃ a : ℚ, lookupT (clientRun net n).ackPerf r.seq = some a ∧
        r.rtt_ms = some ((a - (net r.seq).sPerf) * 1000) ∧
        0 ≤ (a - (net r.seq).sPerf) * 1000 := by
  intro r hr hoc
  obtain ⟨a, ha, hrtt, hle⟩ := (clientRun_rtt net H n).2.2 r hr hoc
  exact ⟨a, ha, hrtt, mul_nonneg (sub_nonneg.mpr hle) (by norm_num)⟩

/-- Witness for C3 at a concrete honest network: seq 1 is ACKED with
RTT (7 − 0) · 1000 ≥ 0 computed from the perf readings. -/
theorem c3_udp_rtt_monotonic_witness :
    ∃ a : ℚ, lookupT (clientRun c3WNet 1).ackPerf c3Row.seq = some a ∧
      c3Row.rtt_ms = some ((a - (c3WNet c3Row.seq).sPerf) * 1000) ∧
      0 ≤ (a - (c3WNet c3Row.seq).sPerf) * 1000 := by
  have H : ∀ w : ℕ, ∀ e ∈ (c3WNet w).events, ∀ (s : ℕ) (tP tW : ℚ),
      e = Event.ack s tP tW → (c3WNet s).sPerf ≤ tP := by
    intro w e he s tP tW heq
    simp only [c3WNet, List.mem_singleton] at he
    subst he
    injection heq with h1 h2 h3
    subst h2
    show ((0 : ℚ) ≤ 7)
    norm_num
  exact c3_udp_rtt_monotonic c3WNet 1 H c3Row (by exact List.Mem.head _) rfl

/-- Counterexample to C3 as stated: the TCP client computes `rtt_ms`
from wall-clock timestamps — the server's embedded `server_recv_ts`
minus the client's `time.time()` send stamp — and records a negative
RTT for an ACKED probe when the server clock lags: here
`server_recv_ts = 50` against `send_ts = 100` gives RTT
(50 − 100)·1000 < 0, stored in the results row and the stats list. -/
theorem c3_rtt_cex :
    (tcpRun c3CexNet 1).results = [⟨1, 100, some 50, some (((50 : ℚ) - 100) * 1000)⟩] ∧
    (tcpRun c3CexNet 1).rtts = [((50 : ℚ) - 100) * 1000] ∧
    ((50 : ℚ) - 100) * 1000 < 0 :=
  ⟨rfl, rfl, by norm_num⟩

/-! ## Server loop characterizations -/

/-- In deterministic mode (`loss_prob = 0`) the server's dropped seqs
are exactly the parsed arrivals on which the drop-k test fires; the RNG
is never consulted. -/
theorem serverLoop_p0 (stream : ℕ → ℚ) (k : ℕ) :
    ∀ (ps : List Packet) (st : SState),
      (serverLoop stream 0 k st ps).dropped =
        st.dropped ++ (parsedSeqs ps).filter (fun s => dropDecisionK k s) := by
  intro ps
  induction ps with
  | nil =>
    intro st
    simp [serverLoop, parsedSeqs]
  | cons pk rest ih =>
    intro st
    have hp0 : ¬ (0 : ℚ) < 0 := lt_irrefl 0
    cases hpk : pk.parsed with
    | none =>
      have hstep : serverStep stream 0 k st pk = { st with recvCount := st.recvCount + 1 } := by
        simp [serverStep, hpk]
      have hps : parsedSeqs (pk :: rest) = parsedSeqs rest := by
        simp [parsedSeqs, List.filterMap_cons, hpk]
      rw [show serverLoop stream 0 k st (pk :: rest) =
            serverLoop stream 0 k (serverStep stream 0 k st pk) rest from rfl,
          hstep, hps, ih]
    | some s =>
      have hps : parsedSeqs (pk :: rest) = s :: parsedSeqs rest := by
        simp [parsedSeqs, List.filterMap_cons, hpk]
      by_cases hd : dropDecisionK k s
      · have hstep : serverStep stream 0 k st pk =
            { st with recvCount := st.recvCount + 1, dropped := st.dropped ++ [s] } := by
          simp [serverStep, hpk, hd]
        rw [show serverLoop stream 0 k st (pk :: rest) =
              serverLoop stream 0 k (serverStep stream 0 k st pk) rest from rfl,
            hstep, hps, ih]
        simp [hd]
      · have hstep : serverStep stream 0 k st pk =
            { st with recvCount := st.recvCount + 1, acks := st.acks ++ [(s, pk.recvTs)] } := by
          simp [serverStep, hpk, hd, hp0]
        rw [show serverLoop stream 0 k st (pk :: rest) =
              serverLoop stream 0 k (serverStep stream 0 k st pk) rest from rfl,
            hstep, hps, ih]
        simp [hd]

/-- C4: with `drop-k = k > 0` the server drops exactly the arrivals with
`seq mod k == 0`; composing server and client for N = 10, k = 3 (ample
timeout, no other loss), seqs 3, 6, 9 are finalized TIMEOUT and the
other seven ACKED, and the server drops exactly [3, 6, 9]. -/
theorem c4_drop_every_k (stream : ℕ → ℚ) (k : ℕ) (ps : List Packet) (hk : 0 < k) :
    (serverLoop stream 0 k initSState ps).dropped =
      (parsedSeqs ps).filter (fun s => decide (s % k = 0)) ∧
    (clientRun scenarioANet 10).rows.map (fun r => (r.seq, r.outcome)) =
      [(1, Outcome.acked), (2, Outcome.acked), (3, Outcome.timeout), (4, Outcome.acked),
       (5, Outcome.acked), (6, Outcome.timeout), (7, Outcome.acked), (8, Outcome.acked),
       (9, Outcome.timeout), (10, Outcome.acked)] ∧
    (serverLoop zeroStream 0 3 initSState c4Ps).dropped = [3, 6, 9] := by
  refine ⟨?_, by decide, by decide⟩
  rw [serverLoop_p0]
  have : ∀ s : ℕ, dropDecisionK k s = decide (s % k = 0) := by
    intro s
    simp [dropDecisionK, hk]
  simp [initSState, this]

/-- Witness for C4 at k = 3 on the arrival trace of seqs 1..10. -/
theorem c4_drop_every_k_witness :
    (serverLoop zeroStream 0 3 initSState c4Ps).dropped =
      (parsedSeqs c4Ps).filter (fun s => decide (s % 3 = 0)) ∧
    (clientRun scenarioANet 10).rows.map (fun r => (r.seq, r.outcome)) =
      [(1, Outcome.acked), (2, Outcome.acked), (3, Outcome.timeout), (4, Outcome.acked),
       (5, Outcome.acked), (6, Outcome.timeout), (7, Outcome.acked), (8, Outcome.acked),
       (9, Outcome.timeout), (10, Outcome.acked)] ∧
    (serverLoop zeroStream 0 3 initSState c4Ps).dropped = [3, 6, 9] :=
  c4_drop_every_k zeroStream 3 c4Ps (by norm_num)

/-- C5: when both loss models are configured (`loss_prob > 0` and
`drop_k > 0`) the server's startup trace is exactly a message to
standard error followed by `sys.exit(1)`: no socket is bound, the serve
loop is never entered, and every exit in the trace carries a non-zero
status. -/
theorem c5_config_conflict_failfast (lossProb : ℚ) (dropK seed : ℕ) (host : String)
    (port : ℕ) (hp : 0 < lossProb) (hk : 0 < dropK) :
    serverStartup lossProb dropK seed host port =
      [SAction.errMsg "Use only one loss model at a time (--loss-prob OR --drop-k).",
       SAction.exitA 1] ∧
    (∀ (h : String) (p : ℕ),
      SAction.bindSock h p ∉ serverStartup lossProb dropK seed host port) ∧
    SAction.serveLoop ∉ serverStartup lossProb dropK seed host port ∧
    (∀ c : ℕ, SAction.exitA c ∈ serverStartup lossProb dropK seed host port → c ≠ 0) := by
  have htr : serverStartup lossProb dropK seed host port =
      [SAction.errMsg "Use only one loss model at a time (--loss-prob OR --drop-k).",
       SAction.exitA 1] := by
    simp [serverStartup, hp, hk]
  refine ⟨htr, ?_, ?_, ?_⟩
  · intro h p
    rw [htr]
    simp
  · rw [htr]
    simp
  · intro c hc
    rw [htr] at hc
    rcases List.mem_cons.mp hc with h1 | h1
    · cases h1
    · rcases List.mem_singleton.mp h1 with h2
      injection h2 with h3
      omega

/-- Witness for C5 with `loss_prob = 1` and `drop_k = 3`. -/
theorem c5_config_conflict_failfast_witness :
    serverStartup 1 3 0 "0.0.0.0" 50995 =
      [SAction.errMsg "Use only one loss model at a time (--loss-prob OR --drop-k).",
       SAction.exitA 1] ∧
    (∀ (h : String) (p : ℕ), SAction.bindSock h p ∉ serverStartup 1 3 0 "0.0.0.0" 50995) ∧
    SAction.serveLoop ∉ serverStartup 1 3 0 "0.0.0.0" 50995 ∧
    (∀ c : ℕ, SAction.exitA c ∈ serverStartup 1 3 0 "0.0.0.0" 50995 → c ≠ 0) :=
  c5_config_conflict_failfast 1 3 0 "0.0.0.0" 50995 (by norm_num) (by norm_num)

/-- The dropped seqs of the server loop depend only on the RNG stream,
the parameters, the starting stream index and the parsed seq order. -/
theorem serverLoop_dropped_char (stream : ℕ → ℚ) (p : ℚ) (k : ℕ) :
    ∀ (ps : List Packet) (st : SState),
      (serverLoop stream p k st ps).dropped =
        st.dropped ++ dropsFrom stream p k st.rngIdx (parsedSeqs ps) := by
  intro ps
  induction ps with
  | nil =>
    intro st
    simp [serverLoop, parsedSeqs, dropsFrom]
  | cons pk rest ih =>
    intro st
    cases hpk : pk.parsed with
    | none =>
      have hstep : serverStep stream p k st pk = { st with recvCount := st.recvCount + 1 } := by
        simp [serverStep, hpk]
      have hps : parsedSeqs (pk :: rest) = parsedSeqs rest := by
        simp [parsedSeqs, List.filterMap_cons, hpk]
      rw [show serverLoop stream p k st (pk :: rest) =
            serverLoop stream p k (serverStep stream p k st pk) rest from rfl,
          hstep, hps, ih]
    | some s =>
      have hps : parsedSeqs (pk :: rest) = s :: parsedSeqs rest := by
        simp [parsedSeqs, List.filterMap_cons, hpk]
      by_cases hd : dropDecisionK k s
      · have hstep : serverStep stream p k st pk =
            { st with recvCount := st.recvCount + 1, dropped := st.dropped ++ [s] } := by
          simp [serverStep, hpk, hd]
        rw [show serverLoop stream p k st (pk :: rest) =
              serverLoop stream p k (serverStep stream p k st pk) rest from rfl,
            hstep, hps, ih]
        simp [dropsFrom, hd]
      · by_cases hpp : (0 : ℚ) < p
        · by_cases hdraw : stream st.rngIdx < p
          · have hstep : serverStep stream p k st pk =
                { st with recvCount := st.recvCount + 1, rngIdx := st.rngIdx + 1,
                          dropped := st.dropped ++ [s] } := by
              simp [serverStep, hpk, hd, hpp, hdraw]
            rw [show serverLoop stream p k st (pk :: rest) =
                  serverLoop stream p k (serverStep stream p k st pk) rest from rfl,
                hstep, hps, ih]
            simp [dropsFrom, hd, hpp, hdraw]
          · have hstep : serverStep stream p k st pk =
                { st with recvCount := st.recvCount + 1, rngIdx := st.rngIdx + 1,
                          acks := st.acks ++ [(s, pk.recvTs)] } := by
              simp [serverStep, hpk, hd, hpp, hdraw]
            rw [show serverLoop stream p k st (pk :: rest) =
                  serverLoop stream p k (serverStep stream p k st pk) rest from rfl,
                hstep, hps, ih]
            simp [dropsFrom, hd, hpp, hdraw]
        · have hstep : serverStep stream p k st pk =
              { st with recvCount := st.recvCount + 1,
                        acks := st.acks ++ [(s, pk.recvTs)] } := by
            simp [serverStep, hpk, hd, hpp]
          rw [show serverLoop stream p k st (pk :: rest) =
                serverLoop stream p k (serverStep stream p k st pk) rest from rfl,
              hstep, hps, ih]
          simp [dropsFrom, hd, hpp]

/-- C6: the set of dropped sequence numbers is a deterministic function
of the seeded RNG stream, the loss parameters and the arrival order of
parsed sequence numbers — two runs over arrival traces with the same
parsed seq order (arbitrary receive times, addresses and malformed
interleavings) drop exactly the same seqs. -/
theorem c6_reproducible_drops (stream : ℕ → ℚ) (p : ℚ) (k : ℕ) (ps1 ps2 : List Packet)
    (h : parsedSeqs ps1 = parsedSeqs ps2) :
    (serverLoop stream p k initSState ps1).dropped =
      (serverLoop stream p k initSState ps2).dropped := by
  rw [serverLoop_dropped_char, serverLoop_dropped_char, h]

/-- Witness for C6: same seq order 1, 2 under different receive times,
addresses and a malformed datagram interleaved, with `p = 1` and the
seeded stream drawing 0 then 1. -/
theorem c6_reproducible_drops_witness :
    parsedSeqs c6Ps1 = parsedSeqs c6Ps2 ∧
    (serverLoop c6Stream 1 0 initSState c6Ps1).dropped =
      (serverLoop c6Stream 1 0 initSState c6Ps2).dropped :=
  ⟨by decide, c6_reproducible_drops c6Stream 1 0 c6Ps1 c6Ps2 (by decide)⟩

/-- C7 (amended): on the UDP client a malformed datagram is discarded
silently — the wait loop's state is untouched and processing continues
with the remaining events of the same window; on the UDP server a
datagram that fails to parse only advances the receive counter before
the loop continues; on the TCP server an unparsable or missing-field
line is skipped and the connection loop continues, writing no
acknowledgment for it; the TCP client, by contrast, stops its loop on
unparsable input (see the counterexample). -/
theorem c7_malformed_discarded_silently (w : ℕ) (st : CState) (evs : List Event)
    (stream : ℕ → ℚ) (p : ℚ) (k : ℕ) (sst : SState) (ts : ℚ) (addr : ℕ)
    (ps : List Packet) (acks : List (ℕ × ℚ)) (ts2 : ℚ) (ls : List TcpLine) :
    procWindow w st (Event.malformed :: evs) = procWindow w st evs ∧
    serverLoop stream p k sst (⟨none, ts, addr⟩ :: ps) =
      serverLoop stream p k { sst with recvCount := sst.recvCount + 1 } ps ∧
    tcpServeConn acks (TcpLine.malformed ts2 :: ls) = tcpServeConn acks ls := by
  refine ⟨?_, ?_, rfl⟩
  · simp [procWindow, procEvent]
  · rw [show serverLoop stream p k sst (⟨none, ts, addr⟩ :: ps) =
        serverLoop stream p k (serverStep stream p k sst ⟨none, ts, addr⟩) ps from rfl]
    rw [show serverStep stream p k sst ⟨none, ts, addr⟩ =
        { sst with recvCount := sst.recvCount + 1 } from by simp [serverStep]]

/-- Counterexample to C7 as stated: when the TCP client's receive for
seq 1 yields data whose JSON parse raises (the generic exception
branch), the loop does not continue to the next receive attempt — the
whole session ends with no result rows at all, while the same session
with a mere timeout in place of the malformed datagram goes on to
produce rows for all three seqs. -/
theorem c7_tcp_stops_cex :
    (tcpRun c7CexNet 3).results = [] ∧
    (tcpRun c7ContrastNet 3).results.map TcpRow.seq = [1, 2, 3] :=
  ⟨rfl, by decide⟩

/-! ## TCP client loop lemmas -/

theorem seqFrom_eq_range : ∀ (j a : ℕ), seqFrom a j = (List.range j).map (fun i => a + i) := by
  intro j
  induction j with
  | zero =>
    intro a
    rfl
  | succ j ih =>
    intro a
    rw [List.range_succ_eq_map]
    simp only [List.map_cons, List.map_map, seqFrom]
    rw [ih (a + 1)]
    have hf : ((fun i => a + i) ∘ Nat.succ) = (fun i => a + 1 + i) := by
      funext i
      simp [Function.comp]
      omega
    rw [hf]
    simp

theorem seqFrom_one (n : ℕ) : seqFrom 1 n = seqList n := by
  rw [seqFrom_eq_range]
  unfold seqList
  congr 1
  funext i
  omega

/-- If the events for `seq .. seq+j-1` are not errors and the event for
`seq+j` is an error, the TCP loop appends exactly the rows for
`seq .. seq+j-1` and stops. -/
theorem tcpLoop_err_char (net : ℕ → TcpIterIn) :
    ∀ (j fuel seq : ℕ) (st : TcpSt), j < fuel →
      (∀ i, seq ≤ i → i < seq + j → (net i).ev ≠ TcpEvent.err) →
      (net (seq + j)).ev = TcpEvent.err →
      (tcpLoop net fuel seq st).results.map TcpRow.seq =
        st.results.map TcpRow.seq ++ seqFrom seq j := by
  intro j
  induction j with
  | zero =>
    intro fuel seq st hj hpre herr
    obtain ⟨f, rfl⟩ : ∃ f, fuel = f + 1 := ⟨fuel - 1, by omega⟩
    have hev : (net seq).ev = TcpEvent.err := by simpa using herr
    simp [tcpLoop, hev, seqFrom]
  | succ j ihj =>
    intro fuel seq st hj hpre herr
    obtain ⟨f, rfl⟩ : ∃ f, fuel = f + 1 := ⟨fuel - 1, by omega⟩
    have hne : (net seq).ev ≠ TcpEvent.err := hpre seq le_rfl (by omega)
    have hpre2 : ∀ i, seq + 1 ≤ i → i < (seq + 1) + j → (net i).ev ≠ TcpEvent.err := by
      intro i ha hb
      exact hpre i (by omega) (by omega)
    have herr2 : (net ((seq + 1) + j)).ev = TcpEvent.err := by
      have heq : (seq + 1) + j = seq + (j + 1) := by omega
      rw [heq]
      exact herr
    cases hev : (net seq).ev with
    | err => exact absurd hev hne
    | timeout =>
      have hred : tcpLoop net (f + 1) seq st =
          tcpLoop net f (seq + 1)
            { st with results := st.results ++ [⟨seq, (net seq).sendTs, none, none⟩] } := by
        simp [tcpLoop, hev]
      rw [hred, ihj f (seq + 1) _ (by omega) hpre2 herr2]
      simp [seqFrom]
    | ack sTs now =>
      have hred : tcpLoop net (f + 1) seq st =
          tcpLoop net f (seq + 1)
            { results := st.results ++ [⟨seq, (net seq).sendTs, some (sTs.getD now),
                some ((sTs.getD now - (net seq).sendTs) * 1000)⟩],
              rtts := st.rtts ++ [(sTs.getD now - (net seq).sendTs) * 1000] } := by
        simp [tcpLoop, hev]
      rw [hred, ihj f (seq + 1) _ (by omega) hpre2 herr2]
      simp [seqFrom]

/-- The TCP loop only appends to `results` and `rtts`. -/
theorem tcpLoop_mono (net : ℕ → TcpIterIn) :
    ∀ (fuel seq : ℕ) (st : TcpSt), ∃ l1 l2,
      (tcpLoop net fuel seq st).results = st.results ++ l1 ∧
      (tcpLoop net fuel seq st).rtts = st.rtts ++ l2 := by
  intro fuel
  induction fuel with
  | zero =>
    intro seq st
    exact ⟨[], [], by simp [tcpLoop], by simp [tcpLoop]⟩
  | succ f ih =>
    intro seq st
    cases hev : (net seq).ev with
    | err =>
      exact ⟨[], [], by simp [tcpLoop, hev], by simp [tcpLoop, hev]⟩
    | timeout =>
      obtain ⟨l1, l2, ha, hb⟩ := ih (seq + 1)
        { st with results := st.results ++ [⟨seq, (net seq).sendTs, none, none⟩] }
      refine ⟨⟨seq, (net seq).sendTs, none, none⟩ :: l1, l2, ?_, ?_⟩
      · rw [show tcpLoop net (f + 1) seq st = tcpLoop net f (seq + 1)
            { st with results := st.results ++ [⟨seq, (net seq).sendTs, none, none⟩] } from by
          simp [tcpLoop, hev]]
        rw [ha]
        simp
      · rw [show tcpLoop net (f + 1) seq st = tcpLoop net f (seq + 1)
            { st with results := st.results ++ [⟨seq, (net seq).sendTs, none, none⟩] } from by
          simp [tcpLoop, hev]]
        rw [hb]
    | ack sTs now =>
      obtain ⟨l1, l2, ha, hb⟩ := ih (seq + 1)
        { results := st.results ++ [⟨seq, (net seq).sendTs, some (sTs.getD now),
            some ((sTs.getD now - (net seq).sendTs) * 1000)⟩],
          rtts := st.rtts ++ [(sTs.getD now - (net seq).sendTs) * 1000] }
      refine ⟨⟨seq, (net seq).sendTs, some (sTs.getD now),
          some ((sTs.getD now - (net seq).sendTs) * 1000)⟩ :: l1,
        ((sTs.getD now - (net seq).sendTs) * 1000) :: l2, ?_, ?_⟩
      · rw [show tcpLoop net (f + 1) seq st = tcpLoop net f (seq + 1)
            { results := st.results ++ [⟨seq, (net seq).sendTs, some (sTs.getD now),
                some ((sTs.getD now - (net seq).sendTs) * 1000)⟩],
              rtts := st.rtts ++ [(sTs.getD now - (net seq).sendTs) * 1000] } from by
          simp [tcpLoop, hev]]
        rw [ha]
        simp
      · rw [show tcpLoop net (f + 1) seq st = tcpLoop net f (seq + 1)
            { results := st.results ++ [⟨seq, (net seq).sendTs, some (sTs.getD now),
                some ((sTs.getD now - (net seq).sendTs) * 1000)⟩],
              rtts := st.rtts ++ [(sTs.getD now - (net seq).sendTs) * 1000] } from by
          simp [tcpLoop, hev]]
        rw [hb]
        simp

/-- If no error occurs among `seq .. seq+j-1`, the TCP loop reaches
iteration `seq+j` with `j` units of fuel spent. -/
theorem tcpLoop_reach (net : ℕ → TcpIterIn) :
    ∀ (j fuel seq : ℕ) (st : TcpSt), j < fuel →
      (∀ i, seq ≤ i → i < seq + j → (net i).ev ≠ TcpEvent.err) →
      ∃ st2, tcpLoop net fuel seq st = tcpLoop net (fuel - j) (seq + j) st2 := by
  intro j
  induction j with
  | zero =>
    intro fuel seq st hj hpre
    exact ⟨st, by simp⟩
  | succ j ihj =>
    intro fuel seq st hj hpre
    obtain ⟨f, rfl⟩ : ∃ f, fuel = f + 1 := ⟨fuel - 1, by omega⟩
    have hne : (net seq).ev ≠ TcpEvent.err := hpre seq le_rfl (by omega)
    have hpre2 : ∀ i, seq + 1 ≤ i → i < (seq + 1) + j → (net i).ev ≠ TcpEvent.err := by
      intro i ha hb
      exact hpre i (by omega) (by omega)
    have harith : f - j = (f + 1) - (j + 1) := by omega
    have harith2 : (seq + 1) + j = seq + (j + 1) := by omega
    cases hev : (net seq).ev with
    | err => exact absurd hev hne
    | timeout =>
      obtain ⟨st2, hst2⟩ := ihj f (seq + 1)
        { st with results := st.results ++ [⟨seq, (net seq).sendTs, none, none⟩] }
        (by omega) hpre2
      refine ⟨st2, ?_⟩
      rw [show tcpLoop net (f + 1) seq st = tcpLoop net f (seq + 1)
          { st with results := st.results ++ [⟨seq, (net seq).sendTs, none, none⟩] } from by
        simp [tcpLoop, hev]]
      rw [hst2, harith, harith2]
    | ack sTs now =>
      obtain ⟨st2, hst2⟩ := ihj f (seq + 1)
        { results := st.results ++ [⟨seq, (net seq).sendTs, some (sTs.getD now),
            some ((sTs.getD now - (net seq).sendTs) * 1000)⟩],
          rtts := st.rtts ++ [(sTs.getD now - (net seq).sendTs) * 1000] }
        (by omega) hpre2
      refine ⟨st2, ?_⟩
      rw [show tcpLoop net (f + 1) seq st = tcpLoop net f (seq + 1)
          { results := st.results ++ [⟨seq, (net seq).sendTs, some (sTs.getD now),
              some ((sTs.getD now - (net seq).sendTs) * 1000)⟩],
            rtts := st.rtts ++ [(sTs.getD now - (net seq).sendTs) * 1000] } from by
        simp [tcpLoop, hev]]
      rw [hst2, harith, harith2]

theorem tcpSummary_sent (n : ℕ) (st : TcpSt) (hs ms : ℚ) :
    lookupT (tcpSummary n st hs ms) "sent" = some (JVal.num n) := by
  by_cases h : st.rtts = [] <;> simp [tcpSummary, lookupT, h]

/-- C9: if a non-timeout exception hits the TCP client at some seq
m < N (nothing earlier erred), the loop stops: the session's rows cover
exactly seqs 1..m−1, no row exists for any seq ≥ m, yet the summary's
`sent` field still reports the configured N. -/
theorem c9_tcp_error_break (net : ℕ → TcpIterIn) (n m : ℕ) (h1 : 1 ≤ m) (h2 : m < n)
    (hpre : ∀ i, 1 ≤ i → i < m → (net i).ev ≠ TcpEvent.err)
    (herr : (net m).ev = TcpEvent.err) :
    (tcpRun net n).results.map TcpRow.seq = seqList (m - 1) ∧
    (∀ hs ms : ℚ, lookupT (tcpSummary n (tcpRun net n) hs ms) "sent" = some (JVal.num n)) ∧
    (∀ r ∈ (tcpRun net n).results, r.seq < m) := by
  have hpre2 : ∀ i, 1 ≤ i → i < 1 + (m - 1) → (net i).ev ≠ TcpEvent.err := by
    intro i ha hb
    exact hpre i ha (by omega)
  have herr2 : (net (1 + (m - 1))).ev = TcpEvent.err := by
    have heq : 1 + (m - 1) = m := by omega
    rw [heq]
    exact herr
  have hchar := tcpLoop_err_char net (m - 1) n 1 ⟨[], []⟩ (by omega) hpre2 herr2
  have hmap : (tcpRun net n).results.map TcpRow.seq = seqList (m - 1) := by
    rw [show tcpRun net n = tcpLoop net n 1 ⟨[], []⟩ from rfl, hchar]
    simp [seqFrom_one]
  refine ⟨hmap, fun hs ms => tcpSummary_sent n (tcpRun net n) hs ms, ?_⟩
  intro r hr
  have hmem : r.seq ∈ (tcpRun net n).results.map TcpRow.seq := List.mem_map_of_mem _ hr
  rw [hmap] at hmem
  have := mem_seqList.mp hmem
  omega

/-- Witness for C9: an error at seq 2 in a 4-probe session leaves only
seq 1's row, while the summary still says `sent = 4`. -/
theorem c9_tcp_error_break_witness :
    (tcpRun c9WNet 4).results.map TcpRow.seq = seqList 1 ∧
    lookupT (tcpSummary 4 (tcpRun c9WNet 4) 1 2) "sent" = some (JVal.num 4) := by
  have h := c9_tcp_error_break c9WNet 4 2 (by omega) (by omega)
    (by
      intro i ha hb
      have hi : i = 1 := by omega
      subst hi
      decide)
    (by decide)
  exact ⟨h.1, h.2.1 1 2⟩

/-- C10: a TCP acknowledgment that parses as JSON but lacks
`server_recv_ts` is not discarded: the client substitutes its own
current wall-clock reading `now` for the missing field, appends the
probe to `results` as acknowledged with `ack_ts = now`, and includes
`(now − send_ts)·1000` in the `rtts` statistics list. -/
theorem c10_missing_ts_defaulted (net : ℕ → TcpIterIn) (n k : ℕ) (now : ℚ)
    (h1 : 1 ≤ k) (h2 : k ≤ n)
    (hpre : ∀ i, 1 ≤ i → i < k → (net i).ev ≠ TcpEvent.err)
    (hev : (net k).ev = TcpEvent.ack none now) :
    (⟨k, (net k).sendTs, some now, some ((now - (net k).sendTs) * 1000)⟩ : TcpRow) ∈
      (tcpRun net n).results ∧
    ((now - (net k).sendTs) * 1000) ∈ (tcpRun net n).rtts := by
  have hpre2 : ∀ i, 1 ≤ i → i < 1 + (k - 1) → (net i).ev ≠ TcpEvent.err := by
    intro i ha hb
    exact hpre i ha (by omega)
  obtain ⟨st2, hst2⟩ := tcpLoop_reach net (k - 1) n 1 ⟨[], []⟩ (by omega) hpre2
  have hk1 : 1 + (k - 1) = k := by omega
  rw [hk1] at hst2
  obtain ⟨f, hf⟩ : ∃ f, n - (k - 1) = f + 1 := ⟨n - (k - 1) - 1, by omega⟩
  rw [hf] at hst2
  have hstep : tcpLoop net (f + 1) k st2 =
      tcpLoop net f (k + 1)
        { results := st2.results ++ [⟨k, (net k).sendTs, some now,
            some ((now - (net k).sendTs) * 1000)⟩],
          rtts := st2.rtts ++ [(now - (net k).sendTs) * 1000] } := by
    simp [tcpLoop, hev]
  obtain ⟨l1, l2, ha, hb⟩ := tcpLoop_mono net f (k + 1)
    { results := st2.results ++ [⟨k, (net k).sendTs, some now,
        some ((now - (net k).sendTs) * 1000)⟩],
      rtts := st2.rtts ++ [(now - (net k).sendTs) * 1000] }
  have hrun : tcpRun net n = tcpLoop net f (k + 1)
      { results := st2.results ++ [⟨k, (net k).sendTs, some now,
          some ((now - (net k).sendTs) * 1000)⟩],
        rtts := st2.rtts ++ [(now - (net k).sendTs) * 1000] } := by
    rw [show tcpRun net n = tcpLoop net n 1 ⟨[], []⟩ from rfl, hst2, hstep]
  constructor
  · rw [hrun, ha]
    simp
  · rw [hrun, hb]
    simp

/-- Witness for C10: seq 1's ack parses but has no `server_recv_ts`;
the row is recorded with the client's wall clock 5 and RTT
(5 − send_ts)·1000 enters the stats list. -/
theorem c10_missing_ts_defaulted_witness :
    (⟨1, (c10WNet 1).sendTs, some 5, some (((5 : ℚ) - (c10WNet 1).sendTs) * 1000)⟩ : TcpRow) ∈
      (tcpRun c10WNet 2).results ∧
    (((5 : ℚ) - (c10WNet 1).sendTs) * 1000) ∈ (tcpRun c10WNet 2).rtts :=
  c10_missing_ts_defaulted c10WNet 2 1 5 (by omega) (by omega)
    (fun i ha hb => absurd ha (by omega)) (by decide)

/-- C8 (amended): the UDP client's summary reports `sent = N`,
`acked` = the number of ACKED rows, `loss_ratio = (N − acked)/N` rounded
to 2 decimals, and RTT avg/min/max (3 decimals) computed exactly over
the ACKED rows' RTT values, with all three null when no row is ACKED
(every ACKED row provably carries an RTT value); the TCP client's
summary reports `sent = N`, `acked` and RTT stats (null when no ack) —
but it has no `loss_ratio` field at all (see the counterexample). -/
theorem c8_summary_fields (net : ℕ → IterInput) (seed n : ℕ) (hn : 0 < n)
    (tst : TcpSt) (hs ms : ℚ) :
    lookupT (udpSummary seed (clientRun net n)) "sent" = some (JVal.num n) ∧
    lookupT (udpSummary seed (clientRun net n)) "acked" =
      some (JVal.num (countAcked (clientRun net n).rows)) ∧
    lookupT (udpSummary seed (clientRun net n)) "loss_ratio" =
      some (JVal.num (rndTo 2 (((n : ℚ) - (countAcked (clientRun net n).rows : ℚ)) / (n : ℚ)))) ∧
    (∀ r ∈ (clientRun net n).rows, r.outcome = Outcome.acked → r.rtt_ms ≠ none) ∧
    (countAcked (clientRun net n).rows = 0 →
      lookupT (udpSummary seed (clientRun net n)) "rtt_ms" =
        some (JVal.obj [("avg", JVal.nullv), ("min", JVal.nullv), ("max", JVal.nullv)])) ∧
    (0 < countAcked (clientRun net n).rows →
      lookupT (udpSummary seed (clientRun net n)) "rtt_ms" =
        some (JVal.obj
          [("avg", JVal.num (rndTo 3 (meanQ (ackedRtts (clientRun net n).rows)))),
           ("min", JVal.num (rndTo 3 ((listMin (ackedRtts (clientRun net n).rows)).getD 0))),
           ("max", JVal.num (rndTo 3 ((listMax (ackedRtts (clientRun net n).rows)).getD 0)))])) ∧
    lookupT (tcpSummary n tst hs ms) "sent" = some (JVal.num n) ∧
    lookupT (tcpSummary n tst hs ms) "acked" = some (JVal.num tst.rtts.length) ∧
    (tst.rtts = [] → lookupT (tcpSummary n tst hs ms) "rtt_ms" = some JVal.nullv) := by
  obtain ⟨hf, hm, hsent, hack, hr⟩ := clientRun_inv net n
  have hlen := ackedRtts_length (clientRun net n).rows hr
  have hne : n ≠ 0 := by omega
  refine ⟨?_, ?_, ?_, hr, ?_, ?_, tcpSummary_sent n tst hs ms, ?_, ?_⟩
  · simp [udpSummary, lookupT, hsent]
  · simp [udpSummary, lookupT, hack]
  · simp [udpSummary, lookupT, hsent, hack, hne]
  · intro h0
    have hnil : ackedRtts (clientRun net n).rows = [] := by
      rw [← List.length_eq_zero, hlen, h0]
    simp [udpSummary, lookupT, hnil]
  · intro h0
    have hnil : ackedRtts (clientRun net n).rows ≠ [] := by
      intro hc
      rw [← hlen, hc] at h0
      simp at h0
    simp [udpSummary, lookupT, hnil]
  · by_cases h : tst.rtts = []
    · simp [tcpSummary, lookupT, h]
    · simp [tcpSummary, lookupT, h]
  · intro h
    simp [tcpSummary, lookupT, h]

/-- Witness for C8 at a 10-probe session with 3 drops, and an empty TCP
stats state. -/
theorem c8_summary_fields_witness :
    lookupT (udpSummary 0 (clientRun scenarioANet 10)) "sent" = some (JVal.num 10) ∧
    lookupT (udpSummary 0 (clientRun scenarioANet 10)) "acked" =
      some (JVal.num (countAcked (clientRun scenarioANet 10).rows)) ∧
    lookupT (udpSummary 0 (clientRun scenarioANet 10)) "loss_ratio" =
      some (JVal.num (rndTo 2
        (((10 : ℚ) - (countAcked (clientRun scenarioANet 10).rows : ℚ)) / (10 : ℚ)))) ∧
    (0 < countAcked (clientRun scenarioANet 10).rows →
      lookupT (udpSummary 0 (clientRun scenarioANet 10)) "rtt_ms" =
        some (JVal.obj
          [("avg", JVal.num (rndTo 3 (meanQ (ackedRtts (clientRun scenarioANet 10).rows)))),
           ("min", JVal.num (rndTo 3 ((listMin (ackedRtts (clientRun scenarioANet 10).rows)).getD 0))),
           ("max", JVal.num (rndTo 3 ((listMax (ackedRtts (clientRun scenarioANet 10).rows)).getD 0)))])) ∧
    lookupT (tcpSummary 10 c8WTcp 1 2) "sent" = some (JVal.num 10) ∧
    lookupT (tcpSummary 10 c8WTcp 1 2) "acked" = some (JVal.num c8WTcp.rtts.length) ∧
    lookupT (tcpSummary 10 c8WTcp 1 2) "rtt_ms" = some JVal.nullv := by
  have h := c8_summary_fields scenarioANet 0 10 (by omega) c8WTcp 1 2
  exact ⟨h.1, h.2.1, h.2.2.1, h.2.2.2.2.2.1, h.2.2.2.2.2.2.1, h.2.2.2.2.2.2.2.1,
    h.2.2.2.2.2.2.2.2 rfl⟩

/-- Counterexample to C8 as stated: the TCP client's summary object of
a fully acknowledged finalized session carries no `loss_ratio` field
(lookup yields `none`), while the UDP client's summary does. -/
theorem c8_tcp_no_loss_ratio_cex :
    lookupT (tcpSummary 1 (tcpRun c8CexNet 1) 1 2) "loss_ratio" = none ∧
    (lookupT (udpSummary 0 (clientRun scenarioANet 10)) "loss_ratio").isSome = true :=
  ⟨rfl, rfl⟩

end A3


